import Mathlib

/-!
# Verification of the five-color planar-graph engine (slick-mongoose)

Shallow embedding of the repository's core: the geometry primitives
(`src/src/vertex.ts` / `geom`), the DCEL `PlanarGraph` and its structural
operations (`planar_graph`, second document of `src/src/animation.ts`), and
the five-coloring pipeline (`src/unnamed/part_000`).

Embedding conventions, chosen to mirror the JavaScript source exactly:

* JS numbers are embedded as `ℚ` (exact real arithmetic; every concrete
  input used below is small enough that IEEE doubles compute it exactly).
* JS object maps keyed by slug strings are embedded as association lists
  over `ℕ` keys.  The source uses the string `'infinite'` for the infinite
  face and the decimal strings `"1", "2", …` produced by a global counter
  for every other record; we embed `'infinite'` as the key `0` and the slug
  `"n"` as the key `n`.  JS enumerates integer-like keys in ascending
  order and the non-numeric `'infinite'` key after them, which
  `Dict.jsKeys` reproduces.
* The global mutable slug counter is threaded explicitly through the
  operations that allocate (`addEdge` and its callees); the source throws
  before allocating in every failure path, so errors leave the counter
  unchanged.
* `throw new Error(msg)` and JS `TypeError`s from reading a field of
  `undefined` are both embedded as `Except.error`: a lookup of a missing
  key or a missing optional field produces an error, exactly where the
  original program would crash.  All operations are pure, so "the caller's
  graph is unchanged on failure" is by construction.
* Unbounded source loops (the face/rotation walks) run on internal fuel
  `edges.length + 1`, which over-approximates the number of pushes the JS
  loop can perform before terminating or crashing; the `while` loop of
  `triangulate` and the recursion of `color` take an explicit fuel
  parameter and report running out of fuel as the distinct error
  `"fuel"`.
* `Math.atan2` is used by the source only through the order of the values
  it returns (`getNextClockwiseEdgeKey` filters with `<` and sorts); we
  embed it as `atan2Q`, a rational pseudo-angle that is strictly
  order-isomorphic to `atan2` on direction vectors, hence induces the very
  same comparisons.
-/

namespace SlickMongoose

/-- Decidable equality for `Except` results (used to evaluate concrete
runs inside proofs). -/
def exceptDecEq {ε α : Type} [DecidableEq ε] [DecidableEq α] :
    (a b : Except ε α) → Decidable (a = b)
  | .ok a, .ok b =>
    if h : a = b then .isTrue (by rw [h]) else .isFalse (fun hh => by cases hh; exact h rfl)
  | .ok _, .error _ => .isFalse (fun hh => by cases hh)
  | .error _, .ok _ => .isFalse (fun hh => by cases hh)
  | .error e, .error f =>
    if h : e = f then .isTrue (by rw [h]) else .isFalse (fun hh => by cases hh; exact h rfl)

instance {ε α : Type} [DecidableEq ε] [DecidableEq α] : DecidableEq (Except ε α) :=
  exceptDecEq

/-- The five colors of `planar_graph.ts` (`enum Color`). -/
inductive Color where
  | Red | Orange | Yellow | Green | Blue
  deriving DecidableEq, Repr

/-- `ALL_COLORS` from `planar_graph.ts`. -/
def ALL_COLORS : List Color := [.Red, .Orange, .Yellow, .Green, .Blue]

/-- A 2-D coordinate (the `Coord` / geometric part of `Vertex` in the source). -/
structure Coord where
  x : ℚ
  y : ℚ
  deriving DecidableEq, Repr

/-- `eq` from `geom` (`vertex.ts` line 24): exact coordinate equality. -/
def eqc (a b : Coord) : Bool := a.x == b.x && a.y == b.y

/-- `xProd` from `geom`: the 2-dimensional cross product. -/
def xProd (v1 v2 : Coord) : ℚ := v1.x * v2.y - v1.y * v2.x

/-- `dot` from `vertex.ts` line 30.  Note the source reads
`v1.x * v2.x + v1.y + v2.y` — the second product is missing, so this is
*not* the mathematical dot product; we embed the code as written. -/
def dot (v1 v2 : Coord) : ℚ := v1.x * v2.x + v1.y + v2.y

/-- `getConsecutiveVertexPairs` / `getConsecutiveCoordPairs` from `geom`:
`p.map getConsecutiveVertexPairs` sends each element to the pair of it and
its cyclic successor. -/
def consecutivePairs (p : List Coord) : List (Coord × Coord) :=
  (List.range p.length).filterMap fun i =>
    match p.get? i, p.get? ((i + 1) % p.length) with
    | some a, some b => some (a, b)
    | _, _ => none

/-- `intersect` from `vertex.ts` lines 40–70: do the segments v1–v2 and
v3–v4 intersect?  Faithful translation, including the broken `dot` in the
all-collinear branch. -/
def intersect (v1 v2 v3 v4 : Coord) (halfOpen : Bool := false) : Bool :=
  let r : Coord := ⟨v2.x - v1.x, v2.y - v1.y⟩
  let s : Coord := ⟨v4.x - v3.x, v4.y - v3.y⟩
  let diff : Coord := ⟨v3.x - v1.x, v3.y - v1.y⟩
  let det := xProd r s
  if det ≠ 0 then
    let t := xProd diff r / det
    let u := xProd diff s / det
    let interior : ℚ → Bool := fun x => 0 < x && x < 1
    let boundary : ℚ → Bool := fun x => x == 0 || x == 1
    if interior t && interior u then
      true
    else if boundary t || boundary u then
      (interior t || interior u) && (!halfOpen || t == 0 || u == 0)
    else
      false
  else
    if xProd diff r ≠ 0 then
      false
    else
      let t0 := dot diff r / dot r r
      let t1 := t0 + dot s r / dot r r
      max t0 t1 > 0 && min t0 t1 < 1

/-- `inInterior` from `vertex.ts` lines 73–83: even–odd ray casting against
a point outside the bounding box. -/
def inInterior (polygon : List Coord) (v : Coord) : Bool :=
  if polygon.length < 3 then false
  else
    let maxX := (polygon.map (·.x)).foldl max ((polygon.map (·.x)).headI)
    let maxY := (polygon.map (·.y)).foldl max ((polygon.map (·.y)).headI)
    let outerVertex : Coord := ⟨maxX + 1, maxY + 1⟩
    let crossingNum := (consecutivePairs polygon).foldl
      (fun n pair => if intersect v outerVertex pair.1 pair.2 true then n + 1 else n) 0
    crossingNum % 2 == 1

/-- `isClockwise` from `vertex.ts` lines 85–91: sign of the shoelace sum. -/
def isClockwise (polygon : List Coord) : Bool :=
  let signedAreaSum := (consecutivePairs polygon).foldl
    (fun s pair => s + (pair.2.x - pair.1.x) * (pair.2.y + pair.1.y)) 0
  signedAreaSum > 0

/-- `convexHull` from `vertex.ts` lines 93–95.  The source body is
`return vertices;` — it returns its input unchanged. -/
def convexHull (vertices : List Coord) : List Coord := vertices

/-- Order-faithful embedding of `Math.atan2 y x`.  A rational pseudo-angle
in `(-2, 2]`: strictly increasing in the true angle `atan2 y x ∈ (-π, π]`,
with `atan2Q 0 0 = 0 = atan2 0 0` as in JS.  The source compares angles
only with `<` (filtering and sorting in `getNextClockwiseEdgeKey`), so any
order-isomorphic surrogate induces identical behavior. -/
def atan2Q (y x : ℚ) : ℚ :=
  if y > 0 then (if x ≥ 0 then y / (x + y) else 1 + (-x) / (-x + y))
  else if y < 0 then -(if x ≥ 0 then (-y) / (x - y) else 1 + (-x) / (-x - y))
  else if x < 0 then 2 else 0

/-- `angle` from `geom` (`vertex.ts` line 32): the direction from `v2` to
`v1`, as a pseudo-angle (see `atan2Q`). -/
def angle (v1 v2 : Coord) : ℚ := atan2Q (v1.y - v2.y) (v1.x - v2.x)

/-- Modelled from the spec: `pointSegmentDistance` is imported by the
triangulator from `geom` but the file that defines it is not under `src/`;
the spec (§4.1, §4.3) describes it as the point-to-segment Euclidean
distance used only to *compare* candidate diagonals.  We model the squared
distance, an order-faithful surrogate (distances are nonnegative, so
squaring preserves every comparison the triangulator makes). -/
def pointSegmentDistanceSq (p a b : Coord) : ℚ :=
  let dx := b.x - a.x
  let dy := b.y - a.y
  let len2 := dx * dx + dy * dy
  if len2 = 0 then (p.x - a.x) ^ 2 + (p.y - a.y) ^ 2
  else
    let t := ((p.x - a.x) * dx + (p.y - a.y) * dy) / len2
    let t := max 0 (min 1 t)
    (p.x - (a.x + t * dx)) ^ 2 + (p.y - (a.y + t * dy)) ^ 2

/-! ## Key-value maps

JS objects keyed by slug strings, embedded as association lists over `ℕ`
(`'infinite'` ↦ `0`, slug `"n"` ↦ `n`).  `insert` overwrites in place or
appends, `erase` deletes, mirroring JS property update/`delete`.
`jsKeys` reproduces JS enumeration order: integer-like keys ascending,
then the non-numeric `'infinite'` key. -/

/-- Association-list map with `ℕ` keys (JS object embedding). -/
def Dict (α : Type) : Type := List (ℕ × α)

instance {α : Type} [DecidableEq α] : DecidableEq (Dict α) :=
  inferInstanceAs (DecidableEq (List (ℕ × α)))

instance {α : Type} [Repr α] : Repr (Dict α) :=
  inferInstanceAs (Repr (List (ℕ × α)))

namespace Dict

def empty {α : Type} : Dict α := []

/-- The underlying entry list of a map. -/
def entries {α : Type} (d : Dict α) : List (ℕ × α) := d

def find? {α : Type} (d : Dict α) (k : ℕ) : Option α :=
  match d with
  | [] => none
  | (k', v) :: rest => if k' = k then some v else find? rest k

def contains {α : Type} (d : Dict α) (k : ℕ) : Bool := (d.find? k).isSome

/-- Property write: overwrite the value at `k` in place, or append a new
binding (JS `obj[k] = v`). -/
def insert {α : Type} (d : Dict α) (k : ℕ) (v : α) : Dict α :=
  match d with
  | [] => [(k, v)]
  | (k', v') :: rest => if k' = k then (k', v) :: rest else (k', v') :: insert rest k v

/-- JS `delete obj[k]` (a no-op when the key is absent). -/
def erase {α : Type} (d : Dict α) (k : ℕ) : Dict α :=
  match d with
  | [] => []
  | (k', v') :: rest => if k' = k then rest else (k', v') :: erase rest k

def size {α : Type} (d : Dict α) : ℕ := (d : List (ℕ × α)).length

/-- Keys in storage order. -/
def keyList {α : Type} (d : Dict α) : List ℕ := (d : List (ℕ × α)).map Prod.fst

/-- Insertion sort, ascending. -/
def sortedInsert (k : ℕ) : List ℕ → List ℕ
  | [] => [k]
  | x :: xs => if k ≤ x then k :: x :: xs else x :: sortedInsert k xs

def sortAsc (l : List ℕ) : List ℕ := l.foldr sortedInsert []

/-- `Object.keys` order for this program's maps: integer-like keys
ascending, the `'infinite'` key (embedded as `0`) last. -/
def jsKeys {α : Type} (d : Dict α) : List ℕ :=
  let ks := sortAsc d.keyList
  ks.filter (· ≠ 0) ++ ks.filter (· = 0)

/-- `Object.values` / lodash `values` in the same enumeration order. -/
def jsValues {α : Type} (d : Dict α) : List α :=
  d.jsKeys.filterMap d.find?

end Dict

/-! ## The DCEL data model (`planar_graph.ts`) -/

/-- `Face` from `planar_graph.ts`. -/
structure Face where
  infinite : Bool
  incidentEdge : Option ℕ := none
  deriving DecidableEq, Repr

/-- `HalfEdge` from `planar_graph.ts`.  All reference fields except
`origin` are optional in the source. -/
structure HalfEdge where
  origin : ℕ
  twin : Option ℕ := none
  next : Option ℕ := none
  prev : Option ℕ := none
  incidentFace : Option ℕ := none
  deriving DecidableEq, Repr

/-- `Vertex` from `planar_graph.ts`: a coordinate plus colors and an
incident-edge entry point.  (`colors` is optional in the source but is set
at every vertex creation; we embed it as always present.) -/
structure Vertex where
  x : ℚ
  y : ℚ
  colors : List Color := []
  incidentEdge : Option ℕ := none
  deriving DecidableEq, Repr

/-- The coordinate of a vertex record. -/
def Vertex.coord (v : Vertex) : Coord := ⟨v.x, v.y⟩

/-- `PlanarGraph` from `planar_graph.ts`. -/
structure PlanarGraph where
  infiniteFace : ℕ
  mark1 : Option ℕ := none
  mark2 : Option ℕ := none
  vertices : Dict Vertex
  edges : Dict HalfEdge
  faces : Dict Face
  deriving DecidableEq, Repr

/-- `createEmptyPlanarGraph` from `planar_graph.ts`. -/
def createEmptyPlanarGraph : PlanarGraph :=
  { infiniteFace := 0
    vertices := Dict.empty
    edges := Dict.empty
    faces := Dict.empty.insert 0 { infinite := true } }

/-! Error monad: JS `throw` (both explicit `new Error(msg)` and the
`TypeError` of reading a field of `undefined`) becomes `Except.error`. -/

/-- Look up a vertex record, crashing (as JS would on a field read of
`undefined`) when the key is missing. -/
def getV (g : PlanarGraph) (k : ℕ) : Except String Vertex :=
  match g.vertices.find? k with
  | some v => .ok v
  | none => .error "TypeError: vertex"

/-- Look up a half-edge record. -/
def getE (g : PlanarGraph) (k : ℕ) : Except String HalfEdge :=
  match g.edges.find? k with
  | some e => .ok e
  | none => .error "TypeError: edge"

/-- Look up a face record. -/
def getF (g : PlanarGraph) (k : ℕ) : Except String Face :=
  match g.faces.find? k with
  | some f => .ok f
  | none => .error "TypeError: face"

/-- Unwrap an optional reference field (JS: using `undefined` as a key
crashes at the next record access). -/
def req {α : Type} (o : Option α) : Except String α :=
  match o with
  | some a => .ok a
  | none => .error "TypeError: undefined"

/-- Write a field of an edge record (JS `edges[k].fld = v`, a `TypeError`
when the key is missing). -/
def modifyE (g : PlanarGraph) (k : ℕ) (f : HalfEdge → HalfEdge) :
    Except String PlanarGraph := do
  let e ← getE g k
  .ok { g with edges := g.edges.insert k (f e) }

/-- Write a field of a vertex record. -/
def modifyV (g : PlanarGraph) (k : ℕ) (f : Vertex → Vertex) :
    Except String PlanarGraph := do
  let v ← getV g k
  .ok { g with vertices := g.vertices.insert k (f v) }

/-- Write a field of a face record. -/
def modifyF (g : PlanarGraph) (k : ℕ) (f : Face → Face) :
    Except String PlanarGraph := do
  let fc ← getF g k
  .ok { g with faces := g.faces.insert k (f fc) }

/-! ### Query operations (`planar_graph.ts` lines 165–209, 311–377) -/

/-- The `while (!includes(...))` walk of `getBoundaryEdgeKeys`: follow
`next` pointers, collecting keys until one repeats.  Internal fuel
`edges.size + 1` over-approximates the pushes the JS loop can make (every
pushed key is immediately looked up, so at most `size` distinct pushes
precede termination or a crash). -/
def boundaryWalk (g : PlanarGraph) : ℕ → ℕ → List ℕ → Except String (List ℕ)
  | 0, _, _ => .error "fuel"
  | fuel + 1, cur, acc =>
    if cur ∈ acc then .ok acc
    else do
      let e ← getE g cur
      let nxt ← req e.next
      boundaryWalk g fuel nxt (acc ++ [cur])

/-- `getBoundaryEdgeKeys` from `planar_graph.ts` lines 165–176. -/
def getBoundaryEdgeKeys (g : PlanarGraph) (fKey : ℕ) : Except String (List ℕ) := do
  let face ← getF g fKey
  match face.incidentEdge with
  | none => .ok []
  | some start => boundaryWalk g (g.edges.size + 1) start []

/-- `getBoundaryVertexKeys` from `planar_graph.ts` lines 178–180. -/
def getBoundaryVertexKeys (g : PlanarGraph) (fKey : ℕ) : Except String (List ℕ) := do
  let eks ← getBoundaryEdgeKeys g fKey
  eks.mapM fun ek => do
    let e ← getE g ek
    pure e.origin

/-- The `twin(e).next` rotation walk of `getOutgoingEdgeKeys`. -/
def rotationWalk (g : PlanarGraph) : ℕ → ℕ → List ℕ → Except String (List ℕ)
  | 0, _, _ => .error "fuel"
  | fuel + 1, cur, acc =>
    if cur ∈ acc then .ok acc
    else do
      let e ← getE g cur
      let tw ← req e.twin
      let te ← getE g tw
      let nxt ← req te.next
      rotationWalk g fuel nxt (acc ++ [cur])

/-- `getOutgoingEdgeKeys` from `planar_graph.ts` lines 199–209. -/
def getOutgoingEdgeKeys (g : PlanarGraph) (vKey : ℕ) : Except String (List ℕ) := do
  let v ← getV g vKey
  match v.incidentEdge with
  | none => .ok []
  | some start => rotationWalk g (g.edges.size + 1) start []

/-- `getAdjacentVertices` from `planar_graph.ts` lines 311–314. -/
def getAdjacentVertices (g : PlanarGraph) (vKey : ℕ) : Except String (List ℕ) := do
  let eks ← getOutgoingEdgeKeys g vKey
  eks.mapM fun ek => do
    let e ← getE g ek
    let nk ← req e.next
    let ne ← getE g nk
    pure ne.origin

/-- `getBoundaryVertices` from `planar_graph.ts` lines 316–318 (vertex
records of a face's boundary). -/
def getBoundaryVertices (g : PlanarGraph) (fKey : ℕ) : Except String (List Vertex) := do
  let vks ← getBoundaryVertexKeys g fKey
  vks.mapM (getV g)

/-- `getVertexKey` from `planar_graph.ts` lines 359–365: `forIn` over the
vertex map, last exact-coordinate match wins. -/
def getVertexKey (g : PlanarGraph) (c : Coord) : Option ℕ :=
  g.vertices.jsKeys.foldl
    (fun acc k =>
      match g.vertices.find? k with
      | some v => if eqc v.coord c then some k else acc
      | none => acc)
    none

/-- `getBoundingFaceKey` from `planar_graph.ts` lines 320–329: last
non-infinite face whose interior contains `c`, defaulting to the infinite
face. -/
def getBoundingFaceKey (g : PlanarGraph) (c : Coord) : Except String ℕ :=
  g.faces.jsKeys.foldlM
    (fun acc fKey =>
      if g.infiniteFace ≠ fKey then do
        let vs ← getBoundaryVertices g fKey
        pure (if inInterior (vs.map Vertex.coord) c then fKey else acc)
      else
        pure acc)
    g.infiniteFace

/-- `getIncidentFaceKeys` from `planar_graph.ts` lines 331–339.  The
mapped `incidentFace` fields may be `undefined` in the source, so the
result is a list of optional keys. -/
def getIncidentFaceKeys (g : PlanarGraph) (c : Coord) : Except String (List (Option ℕ)) := do
  match getVertexKey g c with
  | some vKey => do
    let eks ← getOutgoingEdgeKeys g vKey
    eks.mapM fun ek => do
      let e ← getE g ek
      pure e.incidentFace
  | none => do
    let fk ← getBoundingFaceKey g c
    pure [some fk]

/-- lodash `intersection`: unique values of the first list that occur in
the second, in first-list order. -/
def lodashIntersection {α : Type} [DecidableEq α] (a b : List α) : List α :=
  (a.filter (b.contains ·)).dedup

/-- `getSplitFaceKey` from `planar_graph.ts` lines 182–197: the face, if
any, that a new segment `c1`–`c2` would validly split. -/
def getSplitFaceKey (g : PlanarGraph) (c1 c2 : Coord) : Except String (Option ℕ) := do
  let midpoint : Coord := ⟨(c1.x + c2.x) / 2, (c1.y + c2.y) / 2⟩
  let possFaceKey ← getBoundingFaceKey g midpoint
  let if1 ← getIncidentFaceKeys g c1
  let if2 ← getIncidentFaceKeys g c2
  let commonFaces := lodashIntersection if1 if2
  if commonFaces.contains (some possFaceKey) then do
    let bes ← getBoundaryEdgeKeys g possFaceKey
    let ok ← bes.foldlM
      (fun (acc : Bool) edgeKey => do
        let e ← getE g edgeKey
        let firstVertex ← getV g e.origin
        let nk ← req e.next
        let ne ← getE g nk
        let secondVertex ← getV g ne.origin
        pure (acc && !intersect c1 c2 firstVertex.coord secondVertex.coord))
      true
    pure (if ok then some possFaceKey else none)
  else
    pure none

/-- Stable descending insertion by pseudo-angle (JS
`sort(sortByAngleDecreasing)`, a stable sort in modern engines). -/
def insertDesc (x : ℕ × ℚ) : List (ℕ × ℚ) → List (ℕ × ℚ)
  | [] => [x]
  | y :: ys => if x.2 ≥ y.2 then x :: y :: ys else y :: insertDesc x ys

/-- `getNextClockwiseEdgeKey` from `planar_graph.ts` lines 341–357. -/
def getNextClockwiseEdgeKey (g : PlanarGraph) (vKey : ℕ) (newAngle : ℚ) :
    Except String ℕ := do
  let eks ← getOutgoingEdgeKeys g vKey
  let keysWithAngles ← eks.mapM fun ek => do
    let e ← getE g ek
    let v1 ← getV g e.origin
    let nk ← req e.next
    let ne ← getE g nk
    let v2 ← getV g ne.origin
    pure (ek, angle v1.coord v2.coord)
  let smallAngleEdges := keysWithAngles.filter (fun ea => ea.2 < newAngle)
  let getHighestAngleEdge : List (ℕ × ℚ) → Except String ℕ := fun pairList =>
    match pairList.foldr insertDesc [] with
    | [] => .error "TypeError: sort of empty list"
    | p :: _ => .ok p.1
  if smallAngleEdges.length > 0 then getHighestAngleEdge smallAngleEdges
  else getHighestAngleEdge keysWithAngles

/-- `pickInfiniteEdge` from `planar_graph.ts` lines 367–377: walk the twin
side's cycle and keep whichever half-edge leaves the clockwise cycle for
the bounded face.  The JS `currentEdge !== eTwin` object-identity test is
embedded as key equality. -/
def pickInfiniteEdge (g : PlanarGraph) (eKey : ℕ) : Except String ℕ := do
  let e ← getE g eKey
  let twKey ← req e.twin
  let eTwin ← getE g twKey
  let v0 ← getV g eTwin.origin
  let start ← req eTwin.next
  let rec walk : ℕ → ℕ → List Coord → Except String (List Coord)
    | 0, _, _ => .error "fuel"
    | fuel + 1, cur, acc =>
      if cur = twKey then .ok acc
      else do
        let ce ← getE g cur
        let cv ← getV g ce.origin
        let nxt ← req ce.next
        walk fuel nxt (acc ++ [cv.coord])
  let vs ← walk (g.edges.size + 1) start [v0.coord]
  pure (if isClockwise vs then eKey else twKey)

/-! ### Structural edit operations (`planar_graph.ts` lines 84–163,
211–309, 379–404)

`addEdge` and its callees allocate slugs from the module-global counter;
they run in `SlugM`, whose state (the counter) survives errors exactly as
the JS global does. -/

/-- The computation monad of the allocating operations: an explicit slug
counter underneath `Except`.  Errors propagate but the counter survives
them, exactly as the JS module-global `slugCounter` does across a
`throw`. -/
def SlugM (α : Type) : Type := ℕ → Except String α × ℕ

/-- `pure` for `SlugM`. -/
def SlugM.mk {α : Type} (a : α) : SlugM α := fun n => (.ok a, n)

/-- `bind` for `SlugM`: sequence, short-circuiting on error but keeping
the counter. -/
def SlugM.seq {α β : Type} (x : SlugM α) (f : α → SlugM β) : SlugM β := fun n =>
  match x n with
  | (.ok a, n') => f a n'
  | (.error e, n') => (.error e, n')

instance : Monad SlugM where
  pure := SlugM.mk
  bind := SlugM.seq

/-- JS `throw` inside an allocating operation. -/
def throwS {α : Type} (msg : String) : SlugM α := fun n => (.error msg, n)

/-- `getSlug` from `planar_graph.ts` lines 86–91. -/
def getSlug : SlugM ℕ := fun n => (.ok (n + 1), n + 1)

/-- Lift a non-allocating computation into `SlugM`. -/
def liftE {α : Type} (x : Except String α) : SlugM α := fun n => (x, n)

/-- `begin` from `planar_graph.ts` lines 220–235. -/
def begin (c1 c2 : Coord) : SlugM PlanarGraph := do
  let v1Slug ← getSlug
  let v2Slug ← getSlug
  let e12Slug ← getSlug
  let e21Slug ← getSlug
  let v1 : Vertex := { x := c1.x, y := c1.y, incidentEdge := some e12Slug, colors := ALL_COLORS }
  let v2 : Vertex := { x := c2.x, y := c2.y, incidentEdge := some e21Slug, colors := ALL_COLORS }
  let e12 : HalfEdge :=
    { twin := some e21Slug, next := some e21Slug, prev := some e21Slug,
      origin := v1Slug, incidentFace := some 0 }
  let e21 : HalfEdge :=
    { twin := some e12Slug, next := some e12Slug, prev := some e12Slug,
      origin := v2Slug, incidentFace := some 0 }
  pure
    { infiniteFace := 0
      vertices := (Dict.empty.insert v1Slug v1).insert v2Slug v2
      edges := (Dict.empty.insert e12Slug e12).insert e21Slug e21
      faces := Dict.empty.insert 0 { infinite := true, incidentEdge := some e12Slug } }

/-- `connect` from `planar_graph.ts` lines 237–281: split a face by an
edge between two existing vertices.  Statement-by-statement translation;
aliased record reads (`e2.prev` after the `e1` writes) are re-read from
the current state as the live JS objects would be. -/
def connect (g : PlanarGraph) (vKey1 vKey2 : ℕ) : SlugM PlanarGraph := do
  let adj ← liftE (getAdjacentVertices g vKey1)
  if adj.contains vKey2 then
    throwS "Can't connect already connected vertices"
  else do
    let v1 ← liftE (getV g vKey1)
    let v2 ← liftE (getV g vKey2)
    let boundingFace? ← liftE (getSplitFaceKey g v1.coord v2.coord)
    match boundingFace? with
    | none => throwS "Can't connect those vertices"
    | some boundingFace => do
      let e1Key ← liftE (getNextClockwiseEdgeKey g vKey1 (angle v1.coord v2.coord))
      let e1 ← liftE (getE g e1Key)
      let e2Key ← liftE (getNextClockwiseEdgeKey g vKey2 (angle v2.coord v1.coord))
      let e2 ← liftE (getE g e2Key)
      let v1v2Slug ← getSlug
      let v2v1Slug ← getSlug
      let v1v2 : HalfEdge :=
        { origin := vKey1, next := some e2Key, prev := e1.prev,
          twin := some v2v1Slug, incidentFace := some boundingFace }
      let v2v1 : HalfEdge :=
        { origin := vKey2, next := some e1Key, prev := e2.prev,
          twin := some v1v2Slug, incidentFace := some boundingFace }
      let e1prev ← liftE (req e1.prev)
      let g ← liftE (modifyE g e1prev (fun e => { e with next := some v1v2Slug }))
      let g ← liftE (modifyE g e1Key (fun e => { e with prev := some v2v1Slug }))
      let e2cur ← liftE (getE g e2Key)
      let e2prev ← liftE (req e2cur.prev)
      let g ← liftE (modifyE g e2prev (fun e => { e with next := some v2v1Slug }))
      let g ← liftE (modifyE g e2Key (fun e => { e with prev := some v1v2Slug }))
      let g : PlanarGraph := { g with edges := (g.edges.insert v1v2Slug v1v2).insert v2v1Slug v2v1 }
      let bf ← liftE (getF g boundingFace)
      let newFaceEdge ← liftE
        (if bf.infinite then pickInfiniteEdge g v1v2Slug else Except.ok v1v2Slug)
      let nfe ← liftE (getE g newFaceEdge)
      let g ← liftE (modifyF g boundingFace (fun f => { f with incidentEdge := nfe.twin }))
      let newFaceSlug ← getSlug
      let newFace : Face := { infinite := false, incidentEdge := some newFaceEdge }
      let nfeTwin ← liftE (req nfe.twin)
      let g ← liftE (modifyE g nfeTwin (fun e => { e with incidentFace := some boundingFace }))
      let g ← liftE (modifyE g newFaceEdge (fun e => { e with incidentFace := some newFaceSlug }))
      let start ← liftE (req nfe.next)
      let rec relabel : ℕ → ℕ → PlanarGraph → SlugM PlanarGraph
        | 0, _, _ => throwS "fuel"
        | fuel + 1, cur, g =>
          if cur = newFaceEdge then pure g
          else do
            let g ← liftE (modifyE g cur (fun e => { e with incidentFace := some newFaceSlug }))
            let ce ← liftE (getE g cur)
            let nxt ← liftE (req ce.next)
            relabel fuel nxt g
      let g ← relabel (g.edges.size + 1) start g
      pure { g with faces := g.faces.insert newFaceSlug newFace }

/-- `connectNewVertex` from `planar_graph.ts` lines 283–309: attach a
fresh vertex to an existing one. -/
def connectNewVertex (g : PlanarGraph) (vKey : ℕ) (newVertex : Coord) : SlugM PlanarGraph := do
  let ov ← liftE (getV g vKey)
  let boundingFaceKey? ← liftE (getSplitFaceKey g ov.coord newVertex)
  match boundingFaceKey? with
  | none => throwS "Can't connect those vertices"
  | some boundingFaceKey => do
    let newVertexSlug ← getSlug
    let oldVertex ← liftE (getV g vKey)
    let oldOutEdgeKey ← liftE (getNextClockwiseEdgeKey g vKey (angle oldVertex.coord newVertex))
    let oldOutEdge ← liftE (getE g oldOutEdgeKey)
    let oldInEdgeKey ← liftE (req oldOutEdge.prev)
    let _ ← liftE (getE g oldInEdgeKey)
    let oldNewSlug ← getSlug
    let newOldSlug ← getSlug
    let oldNew : HalfEdge :=
      { origin := vKey, prev := some oldInEdgeKey,
        twin := some newOldSlug, next := some newOldSlug, incidentFace := some boundingFaceKey }
    let newOld : HalfEdge :=
      { origin := newVertexSlug, prev := some oldNewSlug,
        next := some oldOutEdgeKey, twin := some oldNewSlug, incidentFace := some boundingFaceKey }
    let g ← liftE (modifyE g oldInEdgeKey (fun e => { e with next := some oldNewSlug }))
    let g ← liftE (modifyE g oldOutEdgeKey (fun e => { e with prev := some newOldSlug }))
    let g : PlanarGraph := { g with
      vertices := g.vertices.insert newVertexSlug
        { x := newVertex.x, y := newVertex.y, colors := ALL_COLORS,
          incidentEdge := some newOldSlug } }
    pure { g with edges := (g.edges.insert oldNewSlug oldNew).insert newOldSlug newOld }

/-- `addEdge` from `planar_graph.ts` lines 103–116: case split on which of
the two coordinates already name vertices. -/
def addEdge (g : PlanarGraph) (c1 c2 : Coord) : SlugM PlanarGraph := do
  let vKey1 := getVertexKey g c1
  let vKey2 := getVertexKey g c2
  match vKey1, vKey2 with
  | none, none =>
    if g.vertices.jsValues.length > 0 then throwS "Please keep the graph connected"
    else begin c1 c2
  | none, some k2 => connectNewVertex g k2 c1
  | some k1, none => connectNewVertex g k1 c2
  | some k1, some k2 => connect g k1 k2

/-- `safeAddEdge` from `planar_graph.ts` lines 211–218: try `addEdge`,
report success.  Slugs consumed by the attempt stay consumed, as with the
JS global counter. -/
def safeAddEdge (g : PlanarGraph) (c1 c2 : Coord) : SlugM Bool := fun n =>
  match addEdge g c1 c2 n with
  | (.ok _, n') => (.ok true, n')
  | (.error _, n') => (.ok false, n')

/-- `removeEdgeFixOrigin` from `planar_graph.ts` lines 379–389. -/
def removeEdgeFixOrigin (g : PlanarGraph) (edgeKey : ℕ) : Except String PlanarGraph := do
  let e ← getE g edgeKey
  let incomingEdgeKey? := e.prev
  let tw ← req e.twin
  let te ← getE g tw
  let newOutgoingEdgeKey? := te.next
  let faceKey? := e.incidentFace
  let ik ← req incomingEdgeKey?
  let g ← modifyE g ik (fun e' => { e' with next := newOutgoingEdgeKey? })
  let ok ← req newOutgoingEdgeKey?
  let g ← modifyE g ok (fun e' => { e' with prev := incomingEdgeKey? })
  let fk ← req faceKey?
  let g ← modifyF g fk (fun f => { f with incidentEdge := incomingEdgeKey? })
  modifyV g e.origin (fun v => { v with incidentEdge := newOutgoingEdgeKey? })

/-- `removeEdge` from `planar_graph.ts` lines 118–135: merge the two faces
of an edge and delete both half-edges; fails when both half-edges share a
face. -/
def removeEdge (g : PlanarGraph) (edgeKey : ℕ) : Except String PlanarGraph := do
  let e ← getE g edgeKey
  let twinEdgeKey ← req e.twin
  let keepFaceKey? := e.incidentFace
  let te ← getE g twinEdgeKey
  let delFaceKey? := te.incidentFace
  if keepFaceKey? ≠ delFaceKey? then do
    let delFaceKey ← req delFaceKey?
    let newFaceEdges ← getBoundaryEdgeKeys g delFaceKey
    let g ← removeEdgeFixOrigin g edgeKey
    let g ← removeEdgeFixOrigin g twinEdgeKey
    let g : PlanarGraph := { g with faces := g.faces.erase delFaceKey }
    let g ← newFaceEdges.foldlM
      (fun g' ek => modifyE g' ek (fun e' => { e' with incidentFace := keepFaceKey? })) g
    pure { g with edges := (g.edges.erase edgeKey).erase twinEdgeKey }
  else
    throw "Please keep the graph connected"

/-- `removeEdgeByVertices` from `planar_graph.ts` lines 137–147. -/
def removeEdgeByVertices (g : PlanarGraph) (c1 c2 : Coord) : Except String PlanarGraph := do
  let vKey1 ← req (getVertexKey g c1)
  let vKey2 ← req (getVertexKey g c2)
  let eks ← getOutgoingEdgeKeys g vKey1
  let hits ← eks.filterM fun key => do
    let e ← getE g key
    let tw ← req e.twin
    let te ← getE g tw
    pure (te.origin = vKey2)
  match hits with
  | ourEdge :: _ => removeEdge g ourEdge
  | [] => throw "Can't connect already connected vertices"

/-- `removeLeafVertex` from `planar_graph.ts` lines 391–404. -/
def removeLeafVertex (g : PlanarGraph) (vertexKey : ℕ) : Except String PlanarGraph := do
  let out ← getOutgoingEdgeKeys g vertexKey
  if out.length = 1 then do
    let v ← getV g vertexKey
    let outgoingEdgeKey ← req v.incidentEdge
    let oe ← getE g outgoingEdgeKey
    let twinEdgeKey ← req oe.twin
    let g ← removeEdgeFixOrigin g twinEdgeKey
    let g : PlanarGraph := { g with vertices := g.vertices.erase vertexKey }
    pure { g with edges := (g.edges.erase outgoingEdgeKey).erase twinEdgeKey }
  else
    throw "Not a leaf vertex!"

/-- `removeVertex` from `planar_graph.ts` lines 149–159: remove each
outgoing edge, falling back to leaf removal when `removeEdge` throws. -/
def removeVertex (g : PlanarGraph) (vertexKey : ℕ) : Except String PlanarGraph := do
  let eks ← getOutgoingEdgeKeys g vertexKey
  eks.foldlM
    (fun g' eKey =>
      match removeEdge g' eKey with
      | .ok g2 => .ok g2
      | .error _ => removeLeafVertex g' vertexKey)
    g

/-- `getColors` from `planar_graph.ts` lines 406–408. -/
def getColors (g : PlanarGraph) (vKey : ℕ) : Except String (List Color) := do
  let v ← getV g vKey
  pure v.colors

/-- `setColors` from `planar_graph.ts` lines 410–414. -/
def setColors (g : PlanarGraph) (vKey : ℕ) (newColors : List Color) :
    Except String PlanarGraph :=
  modifyV g vKey (fun v => { v with colors := newColors })

/-! ## The five-coloring pipeline (`src/unnamed/part_000`)

`addStep`/`resetAnimation` calls announce progress to the external
animation sink (out of the core per spec §1/§6) and are dropped; every
other statement is translated.  `findChordKey`, `findVp`,
`splitChordedGraph` and `pointSegmentDistance` are imported by this file
from repository modules that are not under `src/`; they are modelled from
the spec below and marked as such. -/

/-- lodash `difference`: elements of the first list absent from the
second, first-list order, no deduplication. -/
def lodashDifference {α : Type} [DecidableEq α] (a b : List α) : List α :=
  a.filter (fun x => !b.contains x)

/-- `updateColors` from `part_000` lines 97–100 (the `addStep` event is
dropped; the `time` argument only feeds that event). -/
def updateColors (g : PlanarGraph) (vKey : ℕ) (colors : List Color) :
    Except String PlanarGraph :=
  setColors g vKey colors

/-- `minDist` from `part_000` lines 9–12, squared (see
`pointSegmentDistanceSq`).  `Math.min` of an empty spread is `+Infinity`,
embedded as `none`. -/
def minDistSq (cList : List Coord) (ep1 ep2 : Coord) : Option ℚ :=
  let sansEndpoints := cList.filter fun v => !(eqc v ep1 || eqc v ep2)
  match sansEndpoints.map (fun v => pointSegmentDistanceSq v ep1 ep2) with
  | [] => none
  | d :: ds => some (ds.foldl min d)

/-- `dist > mostDist` on `Option ℚ` where `none` is `+Infinity`
(`Infinity > x` is true, `x > Infinity` and `Infinity > Infinity` are
false). -/
def optGT (d m : Option ℚ) : Bool :=
  match d, m with
  | none, none => false
  | none, some _ => true
  | some _, none => false
  | some x, some y => x > y

/-- `getBestSplittingEdge` from `part_000` lines 31–49: among the
"skip-one" diagonals of a face, the one that validly splits this very face
and maximizes the minimum distance from the other boundary vertices. -/
def getBestSplittingEdge (g : PlanarGraph) (edgeKeys : List ℕ) (faceKey : ℕ) :
    Except String (List Coord) := do
  let potentialEdges ← edgeKeys.mapM fun eKey => do
    let e ← getE g eKey
    let nk ← req e.next
    let ne ← getE g nk
    let nnk ← req ne.next
    let nne ← getE g nnk
    pure (e.origin, nne.origin)
  let faceVertices ← edgeKeys.mapM fun eKey => do
    let e ← getE g eKey
    let v ← getV g e.origin
    pure v.coord
  let step := fun (acc : Option ℚ × List Coord) (pe : ℕ × ℕ) => do
    let v1 ← getV g pe.1
    let v2 ← getV g pe.2
    let sf ← getSplitFaceKey g v1.coord v2.coord
    if sf = some faceKey then
      let dist := minDistSq faceVertices v1.coord v2.coord
      if optGT dist acc.1 then pure (dist, [v1.coord, v2.coord])
      else pure acc
    else pure acc
  let best ← potentialEdges.foldlM step ((some (-1 : ℚ), ([] : List Coord)))
  pure best.2

/-- `splitFace` from `part_000` lines 51–58.  When `getBestSplittingEdge`
returns the empty pair the source calls `addEdge(g, undefined, undefined)`
which crashes reading `.x`; that crash is the error case here. -/
def splitFace (g : PlanarGraph) (faceKey : ℕ) : SlugM PlanarGraph := do
  let edges ← liftE (getBoundaryEdgeKeys g faceKey)
  if edges.length > 3 && g.infiniteFace ≠ faceKey then do
    let e ← liftE (getBestSplittingEdge g edges faceKey)
    match e with
    | p0 :: p1 :: _ => addEdge g p0 p1
    | _ => throwS "TypeError: undefined coordinate"
  else
    pure g

/-- Short-circuiting monadic `every`. -/
def allME {m : Type → Type} [Monad m] (p : ℕ → m Bool) : List ℕ → m Bool
  | [] => pure true
  | k :: ks => do
    let b ← p k
    if b then allME p ks else pure false

/-- `isTriangulated` from `part_000` lines 60–63: every non-infinite face
has exactly 3 boundary edges. -/
def isTriangulated (g : PlanarGraph) : Except String Bool :=
  allME
    (fun fKey =>
      if g.infiniteFace = fKey then pure true
      else do
        let bes ← getBoundaryEdgeKeys g fKey
        pure (bes.length = 3))
    g.faces.jsKeys

/-- The `while (!isTriangulated(g))` loop of `triangulate` (`part_000`
lines 65–75) with explicit fuel; each sweep iterates the face keys
captured at the start of the sweep, splitting against the current graph,
exactly as `forIn(g.faces, …)` with the reassigned closure variable `g`
does. -/
def triangulateLoop : ℕ → PlanarGraph → SlugM PlanarGraph
  | 0, _ => throwS "fuel"
  | fuel + 1, g => do
    let t ← liftE (isTriangulated g)
    if t then pure g
    else do
      let snapshot := g.faces.jsKeys
      let g ← snapshot.foldlM
        (fun gcur fKey => do
          let bes ← liftE (getBoundaryEdgeKeys gcur fKey)
          if bes.length > 3 then splitFace gcur fKey else pure gcur)
        g
      triangulateLoop fuel g

/-- `triangulate` from `part_000` lines 65–75. -/
def triangulate (fuel : ℕ) (g : PlanarGraph) : SlugM PlanarGraph :=
  triangulateLoop fuel g

/-- `hullify` from `part_000` lines 19–29: add every missing hull edge.
(`convexHull` is the identity in `vertex.ts`, so the "hull" is just the
vertex enumeration.)  A successful `safeAddEdge` probe is followed by the
real `addEdge`, consuming a second batch of slugs, as in the source. -/
def hullify (g : PlanarGraph) : SlugM PlanarGraph := do
  let hullVertices := convexHull (g.vertices.jsValues.map Vertex.coord)
  (consecutivePairs hullVertices).foldlM
    (fun gcur pair => do
      let okB ← safeAddEdge gcur pair.1 pair.2
      if okB then addEdge gcur pair.1 pair.2 else pure gcur)
    g

/-- `preColor` from `part_000` lines 77–95: record the marks, give every
vertex all five candidates, restrict the outer boundary to the first
three, then fix `mark1 ↦ {Red}` and `mark2 ↦ {Blue}`. -/
def preColor (g : PlanarGraph) : Except String PlanarGraph := do
  let boundingVertices ← getBoundaryVertexKeys g g.infiniteFace
  let g : PlanarGraph := { g with mark1 := boundingVertices.get? 0,
                                  mark2 := boundingVertices.get? 1 }
  let g ← g.vertices.jsKeys.foldlM
    (fun g' vKey => updateColors g' vKey ALL_COLORS) g
  let g ← boundingVertices.foldlM
    (fun g' vKey => updateColors g' vKey (ALL_COLORS.take 3)) g
  let m1 ← req g.mark1
  let g ← updateColors g m1 [Color.Red]
  let m2 ← req g.mark2
  updateColors g m2 [Color.Blue]

/-- A candidate-colors update event: the vertex key, its colors before
the write, and the colors written.  Mirrors the data of the
`AnimationType.UpdateColors` step the source emits at each
`updateColors` call. -/
abbrev UpdateEvent : Type := ℕ × List Color × List Color

/-- `updateColors`, instrumented with its update event (the source's
`addStep(AnimationType.UpdateColors, time, { vertex, colors })` at
`part_000` line 98). -/
def updateColorsT (g : PlanarGraph) (vKey : ℕ) (colors : List Color)
    (tr : List UpdateEvent) : Except String (PlanarGraph × List UpdateEvent) := do
  let old ← getColors g vKey
  let g' ← updateColors g vKey colors
  pure (g', tr ++ [(vKey, old, colors)])

/-- `preColor`, instrumented with the trace of its `updateColors`
calls (same control flow as `preColor`). -/
def preColorT (g : PlanarGraph) : Except String (PlanarGraph × List UpdateEvent) := do
  let boundingVertices ← getBoundaryVertexKeys g g.infiniteFace
  let g : PlanarGraph := { g with mark1 := boundingVertices.get? 0,
                                  mark2 := boundingVertices.get? 1 }
  let p1 ← g.vertices.jsKeys.foldlM
    (fun (p : PlanarGraph × List UpdateEvent) vKey =>
      updateColorsT p.1 vKey ALL_COLORS p.2) (g, ([] : List UpdateEvent))
  let p2 ← boundingVertices.foldlM
    (fun (p : PlanarGraph × List UpdateEvent) vKey =>
      updateColorsT p.1 vKey (ALL_COLORS.take 3) p.2) p1
  let m1 ← req p2.1.mark1
  let p3 ← updateColorsT p2.1 m1 [Color.Red] p2.2
  let m2 ← req p3.1.mark2
  updateColorsT p3.1 m2 [Color.Blue] p3.2

/-- `colorTriangle` from `part_000` lines 102–108.  (`[0]` on an empty
`difference` would make JS write the list `[undefined]`; that corner is
embedded as an error.) -/
def colorTriangle (g : PlanarGraph) : Except String PlanarGraph := do
  let m1 ← req g.mark1
  let c1 ← getColors g m1
  let m2 ← req g.mark2
  let c2 ← getColors g m2
  let badColors : List (Option Color) := [c1.head?, c2.head?]
  let thirdCandidates := g.vertices.jsKeys.filter
    (fun k => !(some k == g.mark1 || some k == g.mark2))
  let thirdVertexKey ← req thirdCandidates.head?
  let cs ← getColors g thirdVertexKey
  let okayColor ← req (cs.filter (fun c => !badColors.contains (some c))).head?
  updateColors g thirdVertexKey [okayColor]

/-- `transferColors` from `part_000` lines 110–116. -/
def transferColors (graph subGraph : PlanarGraph) : Except String PlanarGraph :=
  subGraph.vertices.jsKeys.foldlM
    (fun newGraph vKey => do
      let cs ← getColors subGraph vKey
      setColors newGraph vKey cs)
    graph

/-- Modelled from the spec: `findVp` is imported from `planar_graph`, a
module not under `src/`.  Spec §4.4 (chordless case): "pick a boundary
vertex `vp` adjacent to `mark1` (but not equal to either mark)". -/
def findVp (g : PlanarGraph) : Except String (Option ℕ) := do
  match g.mark1 with
  | none => .error "TypeError: undefined mark"
  | some m1 => do
    let boundary ← getBoundaryVertexKeys g g.infiniteFace
    let adj ← getAdjacentVertices g m1
    pure (boundary.find? fun v =>
      adj.contains v && !(some v == g.mark1 || some v == g.mark2))

/-- Cyclic adjacency in a vertex cycle (two keys occupy consecutive
positions of the cyclic list). -/
def cyclicallyAdjacent (cycle : List ℕ) (a b : ℕ) : Bool :=
  (List.range cycle.length).any fun i =>
    match cycle.get? i, cycle.get? ((i + 1) % cycle.length) with
    | some x, some y => (x = a && y = b) || (x = b && y = a)
    | _, _ => false

/-- Modelled from the spec: `findChordKey` is imported from
`planar_graph`, a module not under `src/`.  Spec §4.4 / glossary: a chord
is "an edge connecting two non-adjacent boundary vertices that is not part
of the Hamiltonian outer cycle"; the first such edge key (JS enumeration
order) is returned, `null` when none exists. -/
def findChordKey (g : PlanarGraph) : Except String (Option ℕ) := do
  let bvs ← getBoundaryVertexKeys g g.infiniteFace
  let bes ← getBoundaryEdgeKeys g g.infiniteFace
  let hits ← g.edges.jsKeys.filterM fun k => do
    let e ← getE g k
    let tw ← req e.twin
    pure (bvs.contains e.origin
      && (match (g.edges.find? tw).map HalfEdge.origin with
          | some o => bvs.contains o && !cyclicallyAdjacent bvs e.origin o
          | none => false)
      && !bes.contains k && !bes.contains tw)
  pure hits.head?

/-- Modelled from the spec: `splitChordedGraph` is imported from
`planar_graph`, a module not under `src/`.  The spec (§4.4, chorded case)
fixes only its interface — two subgraphs that both inherit the chord
endpoints as their `mark1`/`mark2` — and no executable description of how
the DCEL is partitioned, so the model reports the missing operation as an
error; no theorem in this file exercises the chorded branch. -/
def splitChordedGraph (_g : PlanarGraph) (_chordKey : ℕ) :
    Except String (PlanarGraph × PlanarGraph) :=
  .error "spec: splitChordedGraph not available under src/"

/-- `colorChordlessGraph` from `part_000` lines 118–143, with the
recursive `color` call passed as a continuation. -/
def colorChordlessGraph (recurse : PlanarGraph → Except String PlanarGraph)
    (g : PlanarGraph) : Except String PlanarGraph := do
  let boundaryVertices ← getBoundaryVertexKeys g g.infiniteFace
  let vp? ← findVp g
  let vp ← req vp?
  let vpColors ← getColors g vp
  let m1 ← req g.mark1
  let m1Colors ← getColors g m1
  let twoColors := (lodashDifference vpColors m1Colors).take 2
  let updatedGraph ← updateColors g vp twoColors
  let subGraph0 ← removeVertex updatedGraph vp
  let adj ← getAdjacentVertices g vp
  let (subGraph, vp1?) ← adj.foldlM
    (fun (acc : PlanarGraph × Option ℕ) vKey => do
      if !boundaryVertices.contains vKey then do
        let cs ← getColors acc.1 vKey
        let g' ← updateColors acc.1 vKey ((lodashDifference cs twoColors).take 3)
        pure (g', acc.2)
      else if some vKey ≠ g.mark1 then
        pure (acc.1, some vKey)
      else
        pure acc)
    (subGraph0, none)
  let subGraph ← recurse subGraph
  let newGraph ← transferColors updatedGraph subGraph
  let vp1 ← req vp1?
  let vp1Colors ← getColors newGraph vp1
  updateColors newGraph vp ((lodashDifference twoColors vp1Colors).take 1)

/-- `colorChordedGraph` from `part_000` lines 145–156, with the recursive
`color` call passed as a continuation. -/
def colorChordedGraph (recurse : PlanarGraph → Except String PlanarGraph)
    (g : PlanarGraph) (chordKey : ℕ) : Except String PlanarGraph := do
  let (firstSubgraph0, secondSubgraph0) ← splitChordedGraph g chordKey
  let firstSubgraph ← recurse firstSubgraph0
  let sm1 ← req secondSubgraph0.mark1
  let csm1 ← getColors firstSubgraph sm1
  let secondSubgraph ← updateColors secondSubgraph0 sm1 csm1
  let sm2 ← req secondSubgraph.mark2
  let csm2 ← getColors firstSubgraph sm2
  let secondSubgraph ← updateColors secondSubgraph sm2 csm2
  let secondSubgraph ← recurse secondSubgraph
  let newGraph ← transferColors g firstSubgraph
  transferColors newGraph secondSubgraph

/-- `color` from `part_000` lines 158–175, fueled. -/
def colorF : ℕ → PlanarGraph → Except String PlanarGraph
  | 0, _ => .error "fuel"
  | fuel + 1, g =>
    if g.vertices.jsValues.length = 3 then colorTriangle g
    else do
      let chord ← findChordKey g
      match chord with
      | some ck => colorChordedGraph (colorF fuel) g ck
      | none => colorChordlessGraph (colorF fuel) g

/-- `fiveColor` from `part_000` lines 177–183:
`color(preColor(triangulate(hullify(graph))))`, fueled. -/
def fiveColorF (fuel : ℕ) (g : PlanarGraph) : SlugM PlanarGraph := do
  let g ← hullify g
  let g ← triangulate fuel g
  let g ← liftE (preColor g)
  liftE (colorF fuel g)

/-! ## Concrete fixtures

Small graphs built by the embedded operations themselves (so their DCEL
structure is exactly what the program would construct). -/

/-- `addEdge` on the empty graph: the `begin` case, two vertices
`(0,0)`–`(1,1)` with one undirected edge. -/
def gTwoRun : Except String PlanarGraph × ℕ :=
  addEdge createEmptyPlanarGraph ⟨0, 0⟩ ⟨1, 1⟩ 0

/-- The two-vertex graph. -/
def gTwo : PlanarGraph := (gTwoRun.1.toOption).getD createEmptyPlanarGraph

/-- Attach `(2,0)` to `(1,1)`: the `connectNewVertex` case, giving the
path `(0,0)–(1,1)–(2,0)`. -/
def gPathRun : Except String PlanarGraph × ℕ := addEdge gTwo ⟨1, 1⟩ ⟨2, 0⟩ gTwoRun.2

/-- The three-vertex path graph. -/
def gPath : PlanarGraph := (gPathRun.1.toOption).getD createEmptyPlanarGraph

/-- Close the triangle `(0,0)–(1,1)–(2,0)`: the `connect` (face-split)
case. -/
def gTriRun : Except String PlanarGraph × ℕ := addEdge gPath ⟨0, 0⟩ ⟨2, 0⟩ gPathRun.2

/-- The triangle graph. -/
def gTri : PlanarGraph := (gTriRun.1.toOption).getD createEmptyPlanarGraph

/-- Slug counter after building the triangle. -/
def gTriN : ℕ := gTriRun.2

/-- The pre-colored two-vertex graph (the state `fiveColor` reaches on
`gTwo` just before the coloring recursion). -/
def gTwoPre : PlanarGraph := ((preColor gTwo).toOption).getD createEmptyPlanarGraph

/-- The graph the full five-color pipeline returns on the triangle. -/
def gTriColored : PlanarGraph :=
  ((fiveColorF 30 gTri gTriN).1.toOption).getD createEmptyPlanarGraph

/-- Pre-colored triangle: the graph `preColorT` returns on `gTri`. -/
def gTriPre : PlanarGraph :=
  ((preColorT gTri).toOption.map Prod.fst).getD createEmptyPlanarGraph

/-- The update trace `preColorT` returns on `gTri`. -/
def gTriPreTrace : List UpdateEvent :=
  ((preColorT gTri).toOption.map Prod.snd).getD []

/-- Square build, step 1: `(0,0)`–`(1,0)`. -/
def sq1Run : Except String PlanarGraph × ℕ := addEdge createEmptyPlanarGraph ⟨0, 0⟩ ⟨1, 0⟩ 0

def sq1 : PlanarGraph := (sq1Run.1.toOption).getD createEmptyPlanarGraph

/-- Square build, step 2: attach `(1,1)`. -/
def sq2Run : Except String PlanarGraph × ℕ := addEdge sq1 ⟨1, 0⟩ ⟨1, 1⟩ sq1Run.2

def sq2 : PlanarGraph := (sq2Run.1.toOption).getD createEmptyPlanarGraph

/-- Square build, step 3: attach `(0,1)`. -/
def sq3Run : Except String PlanarGraph × ℕ := addEdge sq2 ⟨1, 1⟩ ⟨0, 1⟩ sq2Run.2

def sq3 : PlanarGraph := (sq3Run.1.toOption).getD createEmptyPlanarGraph

/-- Square build, step 4: close the cycle `(0,1)`–`(0,0)`. -/
def sq4Run : Except String PlanarGraph × ℕ := addEdge sq3 ⟨0, 1⟩ ⟨0, 0⟩ sq3Run.2

/-- The 4-cycle (square) graph with one bounded quadrilateral face. -/
def gSquare : PlanarGraph := (sq4Run.1.toOption).getD createEmptyPlanarGraph

/-- Slug counter after building the square. -/
def gSquareN : ℕ := sq4Run.2

/-- Running `triangulate` (fuel 10) on the square. -/
def gSquareTriRun : Except String PlanarGraph × ℕ := triangulate 10 gSquare 13

/-- The triangulated square: the best-splitting diagonal has been added. -/
def gSquareTri : PlanarGraph := (gSquareTriRun.1.toOption).getD createEmptyPlanarGraph

/-- A hand-built star DCEL: center vertex `1` at the origin joined to
three leaves `2,3,4`; all six half-edges bound the infinite face. -/
def gStar : PlanarGraph :=
  { infiniteFace := 0
    vertices :=
      [(1, { x := 0, y := 0, colors := ALL_COLORS, incidentEdge := some 10 }),
       (2, { x := 1, y := 0, colors := ALL_COLORS, incidentEdge := some 11 }),
       (3, { x := 0, y := 1, colors := ALL_COLORS, incidentEdge := some 13 }),
       (4, { x := -1, y := 0, colors := ALL_COLORS, incidentEdge := some 15 })]
    edges :=
      [(10, { origin := 1, twin := some 11, next := some 11, prev := some 15, incidentFace := some 0 }),
       (11, { origin := 2, twin := some 10, next := some 12, prev := some 10, incidentFace := some 0 }),
       (12, { origin := 1, twin := some 13, next := some 13, prev := some 11, incidentFace := some 0 }),
       (13, { origin := 3, twin := some 12, next := some 14, prev := some 12, incidentFace := some 0 }),
       (14, { origin := 1, twin := some 15, next := some 15, prev := some 13, incidentFace := some 0 }),
       (15, { origin := 4, twin := some 14, next := some 10, prev := some 14, incidentFace := some 0 })]
    faces := [(0, { infinite := true, incidentEdge := some 10 })] }

/-! ## The rotation chain of `getOutgoingEdgeKeys` -/

/-- One step of the rotation the code walks (`planar_graph.ts` line 205:
`currentEdgeKey = graph.edges[graph.edges[currentEdgeKey].twin].next`),
as a partial map on edge keys: `next(twin(e))`. -/
def stepNextTwin (g : PlanarGraph) (e : ℕ) : Option ℕ :=
  ((g.edges.find? e).bind (fun er => er.twin)).bind
    (fun t => (g.edges.find? t).bind (fun tr => tr.next))

/-- One step of the chain the spec states for `outgoingEdges`:
`twin(next(e))`, as a partial map on edge keys. -/
def stepTwinNext (g : PlanarGraph) (e : ℕ) : Option ℕ :=
  ((g.edges.find? e).bind (fun er => er.next)).bind
    (fun n => (g.edges.find? n).bind (fun nr => nr.twin))

/-- Iterates of a partial step map: `chainIter step e n` is the `n`-th
iterate of `step` starting from `e`. -/
def chainIter (step : ℕ → Option ℕ) (e : ℕ) : ℕ → Option ℕ
  | 0 => some e
  | n + 1 => (chainIter step e n).bind step

/-- Per-edge DCEL half-edge invariants, from the spec's HalfEdge
description: the twin reference is present with `twin(twin(e)) = e`, the
next reference is present with `prev(next(e)) = e`, and twin and next
agree on the edge's head vertex (`origin(twin(e)) = origin(next(e))`). -/
def edgeInvB (g : PlanarGraph) (k : ℕ) (er : HalfEdge) : Bool :=
  match er.twin, er.next with
  | some t, some n =>
    match g.edges.find? t, g.edges.find? n with
    | some tr, some nr =>
      tr.twin == some k && nr.prev == some k && tr.origin == nr.origin
    | _, _ => false
  | _, _ => false

/-- Per-vertex DCEL invariant: the stored incident edge (when present)
exists and originates at the vertex. -/
def vertexInvB (g : PlanarGraph) (k : ℕ) (vr : Vertex) : Bool :=
  match vr.incidentEdge with
  | none => true
  | some ek =>
    match g.edges.find? ek with
    | some er => er.origin == k
    | none => false

/-- The DCEL invariants the rotation claim presumes, restricted to the
references the rotation walk touches. -/
def DCELRotInvariants (g : PlanarGraph) : Prop :=
  (∀ p ∈ g.edges.entries, edgeInvB g p.1 p.2 = true) ∧
  (∀ p ∈ g.vertices.entries, vertexInvB g p.1 p.2 = true)

instance (g : PlanarGraph) : Decidable (DCELRotInvariants g) := by
  unfold DCELRotInvariants
  infer_instance

/-- The claim's stated chain condition, following its words letter for
letter (to be compared with the code's rotation): the returned edges all
originate at `v`, and the `twin(next(e))` chain starting from the first
returned edge returns to its start after exactly `degree(v)` steps (not
earlier), visiting each returned edge once. -/
def statedRotationOk (g : PlanarGraph) (v : ℕ) : Bool :=
  match getOutgoingEdgeKeys g v with
  | .error _ => false
  | .ok [] => true
  | .ok (e0 :: rest) =>
    let deg := (e0 :: rest).length
    ((e0 :: rest).all fun e =>
      match g.edges.find? e with
      | some er => er.origin == v
      | none => false) &&
    (chainIter (stepTwinNext g) e0 deg == some e0) &&
    ((List.range deg).all fun i => i == 0 || !(chainIter (stepTwinNext g) e0 i == some e0)) &&
    ((e0 :: rest).all fun e =>
      ((List.range deg).filter fun i => chainIter (stepTwinNext g) e0 i == some e).length == 1)

/-! ## Dictionary lemmas -/

namespace Dict

theorem find?_insert_self {α : Type} (d : Dict α) (k : ℕ) (v : α) :
    (d.insert k v).find? k = some v := by
  induction d with
  | nil => simp [insert, find?]
  | cons hd tl ih =>
    by_cases h : hd.1 = k
    · simp [insert, find?, h]
    · simp [insert, find?, h, ih]

theorem find?_insert_ne {α : Type} (d : Dict α) (k k' : ℕ) (v : α) (h : k' ≠ k) :
    (d.insert k v).find? k' = d.find? k' := by
  have hkk : ¬ (k = k') := fun hh => h hh.symm
  induction d with
  | nil => simp [insert, find?, hkk]
  | cons hd tl ih =>
    by_cases hk : hd.1 = k
    · subst hk
      by_cases hk' : hd.1 = k'
      · exact absurd hk'.symm h
      · simp [insert, find?, hk']
    · by_cases hk' : hd.1 = k'
      · simp [insert, find?, hk, hk', h]
      · simp [insert, find?, hk, hk', ih]

theorem contains_insert_self {α : Type} (d : Dict α) (k : ℕ) (v : α) :
    (d.insert k v).contains k := by
  simp [contains, find?_insert_self]

theorem size_insert_of_contains {α : Type} (d : Dict α) (k : ℕ) (v : α)
    (h : d.contains k) : (d.insert k v).size = d.size := by
  induction d with
  | nil => simp [contains, find?] at h
  | cons hd tl ih =>
    by_cases hk : hd.1 = k
    · simp [insert, hk, size]
    · simp only [contains, find?, hk, if_neg hk] at h
      simp [insert, hk, size, List.length_cons]
      have := ih h
      simpa [size] using this

theorem size_insert_of_not_contains {α : Type} (d : Dict α) (k : ℕ) (v : α)
    (h : ¬ d.contains k) : (d.insert k v).size = d.size + 1 := by
  induction d with
  | nil => simp [insert, size]
  | cons hd tl ih =>
    by_cases hk : hd.1 = k
    · exfalso; exact h (by simp [contains, find?, hk])
    · simp only [contains, find?, hk, if_neg hk] at h
      simp only [insert, if_neg hk, size, List.length_cons]
      have := ih (by simpa [contains] using h)
      simpa [size] using this

theorem size_erase_of_contains {α : Type} (d : Dict α) (k : ℕ)
    (h : d.contains k) : (d.erase k).size + 1 = d.size := by
  induction d with
  | nil => simp [contains, find?] at h
  | cons hd tl ih =>
    by_cases hk : hd.1 = k
    · simp [erase, hk, size]
    · simp only [contains, find?, hk, if_neg hk] at h
      simp only [erase, if_neg hk, size, List.length_cons]
      have := ih (by simpa [contains] using h)
      simpa [size] using this

theorem find?_erase_ne {α : Type} (d : Dict α) (k k' : ℕ) (h : k' ≠ k) :
    (d.erase k).find? k' = d.find? k' := by
  induction d with
  | nil => simp [erase]
  | cons hd tl ih =>
    by_cases hk : hd.1 = k
    · subst hk
      by_cases hk' : hd.1 = k'
      · exact absurd hk'.symm h
      · simp [erase, find?, hk']
    · by_cases hk' : hd.1 = k'
      · simp [erase, find?, hk, hk', h]
      · simp [erase, find?, hk, hk', ih]

theorem contains_of_find? {α : Type} {d : Dict α} {k : ℕ} {v : α}
    (h : d.find? k = some v) : d.contains k := by
  simp [contains, h]

end Dict

/-! ## Accessor inversion lemmas -/

theorem getV_eq_ok {g : PlanarGraph} {k : ℕ} {v : Vertex} :
    getV g k = .ok v ↔ g.vertices.find? k = some v := by
  unfold getV
  cases h : g.vertices.find? k <;> simp

theorem getE_eq_ok {g : PlanarGraph} {k : ℕ} {e : HalfEdge} :
    getE g k = .ok e ↔ g.edges.find? k = some e := by
  unfold getE
  cases h : g.edges.find? k <;> simp

theorem getF_eq_ok {g : PlanarGraph} {k : ℕ} {f : Face} :
    getF g k = .ok f ↔ g.faces.find? k = some f := by
  unfold getF
  cases h : g.faces.find? k <;> simp

theorem req_eq_ok {α : Type} {o : Option α} {a : α} :
    req o = .ok a ↔ o = some a := by
  unfold req
  cases o <;> simp

theorem except_bind_ok {α β : Type} {x : Except String α} {f : α → Except String β}
    {b : β} (h : x >>= f = .ok b) : ∃ a, x = .ok a ∧ f a = .ok b := by
  cases x with
  | ok a => exact ⟨a, rfl, h⟩
  | error e => simp [Bind.bind, Except.bind] at h

theorem modifyV_eq_ok {g g' : PlanarGraph} {k : ℕ} {f : Vertex → Vertex}
    (h : modifyV g k f = .ok g') :
    ∃ v, g.vertices.find? k = some v ∧
      g' = { g with vertices := g.vertices.insert k (f v) } := by
  unfold modifyV at h
  obtain ⟨v, hv, h2⟩ := except_bind_ok h
  rw [getV_eq_ok] at hv
  cases h2
  exact ⟨v, hv, rfl⟩

theorem modifyE_eq_ok {g g' : PlanarGraph} {k : ℕ} {f : HalfEdge → HalfEdge}
    (h : modifyE g k f = .ok g') :
    ∃ e, g.edges.find? k = some e ∧
      g' = { g with edges := g.edges.insert k (f e) } := by
  unfold modifyE at h
  obtain ⟨e, he, h2⟩ := except_bind_ok h
  rw [getE_eq_ok] at he
  cases h2
  exact ⟨e, he, rfl⟩

theorem modifyF_eq_ok {g g' : PlanarGraph} {k : ℕ} {f : Face → Face}
    (h : modifyF g k f = .ok g') :
    ∃ fc, g.faces.find? k = some fc ∧
      g' = { g with faces := g.faces.insert k (f fc) } := by
  unfold modifyF at h
  obtain ⟨fc, hfc, h2⟩ := except_bind_ok h
  rw [getF_eq_ok] at hfc
  cases h2
  exact ⟨fc, hfc, rfl⟩

theorem slugm_bind_ok {α β : Type} {x : SlugM α} {f : α → SlugM β} {n n1 : ℕ} {a : α}
    (h : x n = (.ok a, n1)) : (x >>= f) n = f a n1 := by
  show SlugM.seq x f n = f a n1
  unfold SlugM.seq
  rw [h]

theorem slugm_bind_eq_ok {α β : Type} {x : SlugM α} {f : α → SlugM β} {n n2 : ℕ} {b : β}
    (h : (x >>= f) n = (.ok b, n2)) :
    ∃ a n1, x n = (.ok a, n1) ∧ f a n1 = (.ok b, n2) := by
  have h' : SlugM.seq x f n = (.ok b, n2) := h
  unfold SlugM.seq at h'
  rcases hx : x n with ⟨r, n1⟩
  rw [hx] at h'
  cases r with
  | ok a => exact ⟨a, n1, rfl, h'⟩
  | error e => simp at h'

/-! ## C10 — `setColors` is a frame-exact single-field update -/

/-- C10: for every graph `g`, vertex key `v` present in `g` and color list
`cs`, `setColors g v cs` succeeds and returns a graph in which `v`'s
`colors` field is `cs` while every other field of `v`, every other vertex,
all edges, all faces, the infinite-face key and both mark keys are
unchanged.  (The input itself is untouched: the embedding is pure, like
the source's `cloneDeep`-then-mutate discipline.) -/
theorem c10_setColors_frame (g : PlanarGraph) (v : ℕ) (cs : List Color) (vtx : Vertex)
    (h : g.vertices.find? v = some vtx) :
    ∃ g', setColors g v cs = .ok g' ∧
      g'.vertices.find? v = some { vtx with colors := cs } ∧
      (∀ k, k ≠ v → g'.vertices.find? k = g.vertices.find? k) ∧
      g'.edges = g.edges ∧ g'.faces = g.faces ∧
      g'.infiniteFace = g.infiniteFace ∧ g'.mark1 = g.mark1 ∧ g'.mark2 = g.mark2 := by
  refine ⟨{ g with vertices := g.vertices.insert v { vtx with colors := cs } },
    ?_, ?_, ?_, rfl, rfl, rfl, rfl, rfl⟩
  · unfold setColors modifyV getV
    rw [h]
    rfl
  · exact Dict.find?_insert_self _ _ _
  · intro k hk
    exact Dict.find?_insert_ne _ _ _ _ hk

/-- Witness for C10 at the triangle fixture: update vertex `1`'s colors to
`[Red]`. -/
theorem c10_setColors_frame_witness :
    ∃ g', setColors gTri 1 [Color.Red] = .ok g' ∧
      g'.vertices.find? 1 =
        some { x := 0, y := 0, colors := [Color.Red], incidentEdge := some 3 } ∧
      (∀ k, k ≠ 1 → g'.vertices.find? k = gTri.vertices.find? k) ∧
      g'.edges = gTri.edges ∧ g'.faces = gTri.faces ∧
      g'.infiniteFace = gTri.infiniteFace ∧ g'.mark1 = gTri.mark1 ∧ g'.mark2 = gTri.mark2 :=
  c10_setColors_frame gTri 1 [Color.Red]
    { x := 0, y := 0, colors := ALL_COLORS, incidentEdge := some 3 }
    (by with_unfolding_all decide)

/-! ## C6 — `convexHull` is the identity, not a convex hull -/

/-- C6 (code bug): `convexHull` returns its input unchanged for every
input.  On the four points `(0,0), (4,0), (0,4), (1,1)` the claimed
behavior (interior points never appear) fails: `(1,1)` lies strictly
inside the triangle of the other three — by the program's own
`inInterior` test — yet appears in the result. -/
theorem c6_convexHull_is_identity :
    convexHull [⟨0, 0⟩, ⟨4, 0⟩, ⟨0, 4⟩, ⟨1, 1⟩] = [⟨0, 0⟩, ⟨4, 0⟩, ⟨0, 4⟩, ⟨1, 1⟩] ∧
    (⟨1, 1⟩ : Coord) ∈ convexHull [⟨0, 0⟩, ⟨4, 0⟩, ⟨0, 4⟩, ⟨1, 1⟩] ∧
    inInterior [⟨0, 0⟩, ⟨4, 0⟩, ⟨0, 4⟩] ⟨1, 1⟩ = true ∧
    (∀ vs : List Coord, convexHull vs = vs) :=
  ⟨rfl, by with_unfolding_all decide, by with_unfolding_all decide, fun _ => rfl⟩

/-! ## C7 — the collinear branch of `intersect` is broken -/

/-- Modelled from the spec's words for C7 only (for comparison against the
source): the mathematical dot product, which the spec's "projecting onto
the common line" requires.  The source's `dot` (`vertex.ts` line 30)
instead computes `v1.x*v2.x + v1.y + v2.y`. -/
def dotSpec (v1 v2 : Coord) : ℚ := v1.x * v2.x + v1.y * v2.y

/-- Modelled from the spec's words for C7 only: two collinear segments
"overlap in an interval of positive length" — project all four endpoints
onto the line through `p1`–`p2` and intersect the parameter intervals. -/
def collinearOverlapPositive (p1 p2 p3 p4 : Coord) : Bool :=
  let r : Coord := ⟨p2.x - p1.x, p2.y - p1.y⟩
  let t3 := dotSpec ⟨p3.x - p1.x, p3.y - p1.y⟩ r / dotSpec r r
  let t4 := dotSpec ⟨p4.x - p1.x, p4.y - p1.y⟩ r / dotSpec r r
  min 1 (max t3 t4) > max 0 (min t3 t4)

/-- C7 (code bug): on the collinear, *disjoint* segments
`(0,0)–(0,1)` and `(0,-2)–(0,-1)` the program's `intersect` answers
`true`, although their projections onto the common line (`[0,1]` and
`[-2,-1]`) do not overlap at all.  The root cause is the typo in `dot`
(`v1.y + v2.y` instead of `v1.y * v2.y`), so the "projection" of the
degenerate branch is not a projection.  The first two conjuncts certify
the configuration is the all-collinear branch (both cross products
vanish). -/
theorem c7_intersect_collinear_wrong :
    xProd ⟨0 - 0, 1 - 0⟩ ⟨0 - 0, (-1) - (-2)⟩ = 0 ∧
    xProd ⟨0 - 0, (-2) - 0⟩ ⟨0 - 0, 1 - 0⟩ = 0 ∧
    intersect ⟨0, 0⟩ ⟨0, 1⟩ ⟨0, -2⟩ ⟨0, -1⟩ = true ∧
    collinearOverlapPositive ⟨0, 0⟩ ⟨0, 1⟩ ⟨0, -2⟩ ⟨0, -1⟩ = false := by
  refine ⟨?_, ?_, ?_, ?_⟩ <;> with_unfolding_all decide

/-! ## C5 — failing structural edits leave the graph unchanged -/

/-- C5: (i) `insertEdge` (`addEdge`) between two coordinates that name
existing, already-adjacent vertices fails with the already-adjacent error,
leaving the slug counter — and, the embedding being pure, the caller's
graph — untouched; (ii) `removeEdge` on an edge whose two half-edges have
the same incident face fails with the stay-connected error, likewise
leaving the graph untouched. -/
theorem c5_failing_edits_leave_graph_unchanged :
    (∀ (g : PlanarGraph) (n : ℕ) (c1 c2 : Coord) (k1 k2 : ℕ) (adj : List ℕ),
      getVertexKey g c1 = some k1 →
      getVertexKey g c2 = some k2 →
      getAdjacentVertices g k1 = .ok adj →
      k2 ∈ adj →
      addEdge g c1 c2 n = (.error "Can't connect already connected vertices", n)) ∧
    (∀ (g : PlanarGraph) (ek tw : ℕ) (e te : HalfEdge),
      g.edges.find? ek = some e →
      e.twin = some tw →
      g.edges.find? tw = some te →
      e.incidentFace = te.incidentFace →
      removeEdge g ek = .error "Please keep the graph connected") := by
  constructor
  · intro g n c1 c2 k1 k2 adj h1 h2 hadj hmem
    unfold addEdge
    rw [h1, h2]
    show connect g k1 k2 n = _
    unfold connect
    rw [hadj]
    have hc : adj.contains k2 = true := by
      simpa using hmem
    show SlugM.seq (liftE (Except.ok adj)) _ n = _
    unfold SlugM.seq liftE
    simp only [hc, if_true]
    rfl
  · intro g ek tw e te h1 h2 h3 h4
    unfold removeEdge
    have hge : getE g ek = .ok e := getE_eq_ok.mpr h1
    have hrq : req e.twin = .ok tw := req_eq_ok.mpr h2
    have hge2 : getE g tw = .ok te := getE_eq_ok.mpr h3
    rw [hge]
    show (req e.twin >>= _ : Except String PlanarGraph) = _
    rw [hrq]
    show (getE g tw >>= _ : Except String PlanarGraph) = _
    rw [hge2]
    show (if e.incidentFace ≠ te.incidentFace then _ else _ : Except String PlanarGraph) = _
    rw [if_neg (by simp [h4])]
    rfl

/-- Witness for C5 at the two-vertex fixture: its vertices `1` and `2`
(coordinates `(0,0)` and `(1,1)`) are adjacent, so re-adding their edge
fails with the already-adjacent error; both half-edges `3`/`4` of its
single edge bound the infinite face, so removing it fails with the
stay-connected error. -/
theorem c5_failing_edits_witness :
    addEdge gTwo ⟨0, 0⟩ ⟨1, 1⟩ 4 = (.error "Can't connect already connected vertices", 4) ∧
    removeEdge gTwo 3 = .error "Please keep the graph connected" :=
  ⟨c5_failing_edits_leave_graph_unchanged.1 gTwo 4 ⟨0, 0⟩ ⟨1, 1⟩ 1 2 [2]
      (by with_unfolding_all decide) (by with_unfolding_all decide)
      (by with_unfolding_all decide) (by with_unfolding_all decide),
    c5_failing_edits_leave_graph_unchanged.2 gTwo 3 4
      { origin := 1, twin := some 4, next := some 4, prev := some 4, incidentFace := some 0 }
      { origin := 2, twin := some 3, next := some 3, prev := some 3, incidentFace := some 0 }
      (by with_unfolding_all decide) (by with_unfolding_all decide)
      (by with_unfolding_all decide) (by with_unfolding_all decide)⟩

/-! ## C8 — insertEdge/removeEdge round trip can delete the infinite face -/

/-- The round trip of C8 on the path fixture: insert the edge
`(0,0)–(2,0)` (giving `gTri`), then remove it again by its coordinates. -/
def c8Roundtrip : Except String PlanarGraph := removeEdgeByVertices gTri ⟨0, 0⟩ ⟨2, 0⟩

/-- The graph the round trip produces. -/
def c8Final : PlanarGraph := (c8Roundtrip.toOption).getD createEmptyPlanarGraph

/-- C8 (code bug): on the path `(0,0)–(1,1)–(2,0)` — a valid DCEL whose
vertices `1` (at `(0,0)`) and `5` (at `(2,0)`) are *not* adjacent and
admit a valid splitting face (the insert below succeeds) — inserting the
edge and removing it again does **not** restore the face structure up to
renaming: `removeEdge` keeps the face of `edges[edgeKey].incidentFace`,
which here is the new *bounded* triangle, and deletes the record of the
*infinite* face, so the result has `infiniteFace = 0` dangling and no face
flagged infinite at all, while the original graph has exactly its one
infinite face.  No key renaming can identify a graph with an
infinite-flagged face and one without. -/
theorem c8_roundtrip_not_structure_preserving :
    getVertexKey gPath ⟨0, 0⟩ = some 1 ∧
    getVertexKey gPath ⟨2, 0⟩ = some 5 ∧
    getAdjacentVertices gPath 1 = .ok [2] ∧
    gTriRun.1 = .ok gTri ∧
    c8Roundtrip = .ok c8Final ∧
    gPath.infiniteFace = 0 ∧
    gPath.faces.jsKeys = [0] ∧
    gPath.faces.find? 0 = some { infinite := true, incidentEdge := some 3 } ∧
    c8Final.infiniteFace = 0 ∧
    c8Final.faces.find? 0 = none ∧
    c8Final.faces.jsKeys = [10] ∧
    c8Final.faces.find? 10 = some { infinite := false, incidentEdge := some 4 } := by
  with_unfolding_all decide

/-! ## C2 — Euler's formula after structural mutations

`euler g = V − E + F` with `E` the half-edge count divided by two, as the
spec counts it. -/

/-- The Euler quantity `V − E + F` (`E` = half-edges / 2). -/
def euler (g : PlanarGraph) : ℚ :=
  (g.vertices.size : ℚ) + (g.faces.size : ℚ) - (g.edges.size : ℚ) / 2

/-- Every key of the graph is at most `n`: the slug-counter invariant
(the JS counter only ever hands out fresh keys). -/
def KeysBelow (g : PlanarGraph) (n : ℕ) : Prop :=
  (∀ k ∈ g.vertices.keyList, k ≤ n) ∧
  (∀ k ∈ g.edges.keyList, k ≤ n) ∧
  (∀ k ∈ g.faces.keyList, k ≤ n)

/-- No half-edge is its own twin (part of the DCEL twin invariant). -/
def NoSelfTwin (g : PlanarGraph) : Prop :=
  ∀ k e, g.edges.find? k = some e → e.twin ≠ some k

/-- The edge map has no duplicated keys (automatic for JS objects). -/
def EdgesNodup (g : PlanarGraph) : Prop := g.edges.keyList.Nodup

namespace Dict

theorem size_eq_keyList_length {α : Type} (d : Dict α) : d.size = d.keyList.length := by
  simp [size, keyList]

theorem contains_iff_mem_keyList {α : Type} (d : Dict α) (k : ℕ) :
    d.contains k = true ↔ k ∈ d.keyList := by
  induction d with
  | nil => simp [contains, find?, keyList]
  | cons hd tl ih =>
    by_cases hk : hd.1 = k
    · simp [contains, find?, keyList, hk]
    · simp only [contains, find?, if_neg hk, keyList, List.map_cons, List.mem_cons]
      constructor
      · intro hh
        exact Or.inr (ih.mp hh)
      · rintro (hh | hh)
        · exact absurd hh.symm hk
        · exact ih.mpr hh

theorem keyList_insert_of_contains {α : Type} (d : Dict α) (k : ℕ) (v : α)
    (h : d.contains k) : (d.insert k v).keyList = d.keyList := by
  induction d with
  | nil => simp [contains, find?] at h
  | cons hd tl ih =>
    by_cases hk : hd.1 = k
    · simp [insert, hk, keyList]
    · have h' : contains tl k = true := by
        simpa only [contains, find?, if_neg hk] using h
      simp only [insert, if_neg hk, keyList, List.map_cons]
      exact congrArg (hd.1 :: ·) (ih h')

theorem keyList_insert_of_not_contains {α : Type} (d : Dict α) (k : ℕ) (v : α)
    (h : ¬ d.contains k) : (d.insert k v).keyList = d.keyList ++ [k] := by
  induction d with
  | nil => simp [insert, keyList]
  | cons hd tl ih =>
    by_cases hk : hd.1 = k
    · exact absurd (by simp [contains, find?, hk]) h
    · have h' : ¬ contains tl k = true := by
        intro hh
        exact h (by simpa only [contains, find?, if_neg hk] using hh)
      simp only [insert, if_neg hk, keyList, List.map_cons, List.cons_append]
      exact congrArg (hd.1 :: ·) (ih h')

theorem keyList_erase_sublist {α : Type} (d : Dict α) (k : ℕ) :
    (d.erase k).keyList.Sublist d.keyList := by
  induction d with
  | nil => simp [erase, keyList]
  | cons hd tl ih =>
    by_cases hk : hd.1 = k
    · simpa [erase, hk, keyList] using (List.sublist_cons_self hd.1 (keyList tl))
    · exact (by simpa [erase, hk, keyList] using List.Sublist.cons₂ hd.1 ih :
        ((erase (hd :: tl) k).keyList).Sublist (keyList (hd :: tl)))

theorem nodup_keyList_insert {α : Type} (d : Dict α) (k : ℕ) (v : α)
    (h : d.keyList.Nodup) : (d.insert k v).keyList.Nodup := by
  by_cases hc : d.contains k
  · rw [keyList_insert_of_contains d k v hc]; exact h
  · rw [keyList_insert_of_not_contains d k v hc]
    have hk : k ∉ d.keyList := fun hm => hc ((contains_iff_mem_keyList d k).mpr hm)
    simp [List.nodup_append, h, hk]

theorem nodup_keyList_erase {α : Type} (d : Dict α) (k : ℕ)
    (h : d.keyList.Nodup) : (d.erase k).keyList.Nodup :=
  (keyList_erase_sublist d k).nodup h

theorem find?_erase_self_of_nodup {α : Type} (d : Dict α) (k : ℕ)
    (h : d.keyList.Nodup) : (d.erase k).find? k = none := by
  induction d with
  | nil => simp [erase, find?]
  | cons hd tl ih =>
    by_cases hk : hd.1 = k
    · subst hk
      simp only [erase, if_pos rfl]
      simp only [keyList, List.map_cons, List.nodup_cons] at h
      cases hfind : find? tl hd.1 with
      | none => exact hfind
      | some v =>
        exact absurd ((contains_iff_mem_keyList tl hd.1).mp (by simp [contains, hfind])) h.1
    · simp only [keyList, List.map_cons, List.nodup_cons] at h
      simp [erase, find?, hk, ih h.2]

theorem not_contains_of_gt {α : Type} (d : Dict α) (k n : ℕ)
    (hb : ∀ k' ∈ d.keyList, k' ≤ n) (h : n < k) : ¬ d.contains k := by
  intro hc
  exact absurd (hb k ((contains_iff_mem_keyList d k).mp hc)) (by omega)

theorem keyList_pair {α : Type} (a b : ℕ) (x y : α) (hab : a ≠ b) :
    ((Dict.empty.insert a x).insert b y).keyList = [a, b] := by
  simp [Dict.insert, Dict.empty, Dict.keyList, hab]

end Dict

/-- Backward edge preservation: every edge of `g'` already existed in `g`
with the same `origin` and `twin` (the edit only rewired
`next`/`prev`/`incidentFace` or deleted edges). -/
def EdgeOTSub (g g' : PlanarGraph) : Prop :=
  ∀ k e', g'.edges.find? k = some e' →
    ∃ e, g.edges.find? k = some e ∧ e'.origin = e.origin ∧ e'.twin = e.twin

/-- Forward edge preservation: every edge of `g` survives into `g'` with
the same `origin` and `twin` (the edit only rewired pointers or added
fresh edges). -/
def EdgeOTExt (g g' : PlanarGraph) : Prop :=
  ∀ k e, g.edges.find? k = some e →
    ∃ e', g'.edges.find? k = some e' ∧ e'.origin = e.origin ∧ e'.twin = e.twin

theorem edgeOTSub_refl (g : PlanarGraph) : EdgeOTSub g g :=
  fun k e' h => ⟨e', h, rfl, rfl⟩

theorem edgeOTSub_trans {g1 g2 g3 : PlanarGraph}
    (h12 : EdgeOTSub g1 g2) (h23 : EdgeOTSub g2 g3) : EdgeOTSub g1 g3 := by
  intro k e3 h3
  obtain ⟨e2, h2, ho23, ht23⟩ := h23 k e3 h3
  obtain ⟨e1, h1, ho12, ht12⟩ := h12 k e2 h2
  exact ⟨e1, h1, ho23.trans ho12, ht23.trans ht12⟩

theorem edgeOTExt_refl (g : PlanarGraph) : EdgeOTExt g g :=
  fun k e h => ⟨e, h, rfl, rfl⟩

theorem edgeOTExt_trans {g1 g2 g3 : PlanarGraph}
    (h12 : EdgeOTExt g1 g2) (h23 : EdgeOTExt g2 g3) : EdgeOTExt g1 g3 := by
  intro k e1 h1
  obtain ⟨e2, h2, ho12, ht12⟩ := h12 k e1 h1
  obtain ⟨e3, h3, ho23, ht23⟩ := h23 k e2 h2
  exact ⟨e3, h3, ho23.trans ho12, ht23.trans ht12⟩

/-- A pointer-field rewrite (`next`/`prev`/`incidentFace`) of one edge
preserves both edge-preservation relations and every key list, the other
two maps, the marks and the infinite-face key. -/
theorem modifyE_pointer_shape {g g' : PlanarGraph} {k : ℕ} {f : HalfEdge → HalfEdge}
    (hf : ∀ e, (f e).origin = e.origin ∧ (f e).twin = e.twin)
    (h : modifyE g k f = .ok g') :
    g'.vertices = g.vertices ∧ g'.faces = g.faces ∧
    g'.edges.keyList = g.edges.keyList ∧
    g'.infiniteFace = g.infiniteFace ∧ g'.mark1 = g.mark1 ∧ g'.mark2 = g.mark2 ∧
    EdgeOTSub g g' ∧ EdgeOTExt g g' := by
  obtain ⟨e, he, rfl⟩ := modifyE_eq_ok h
  refine ⟨rfl, rfl, ?_, rfl, rfl, rfl, ?_, ?_⟩
  · exact Dict.keyList_insert_of_contains _ _ _ (Dict.contains_of_find? he)
  · intro k' e' h'
    by_cases hk : k' = k
    · subst hk
      rw [Dict.find?_insert_self] at h'
      cases h'
      exact ⟨e, he, (hf e).1, (hf e).2⟩
    · rw [Dict.find?_insert_ne _ _ _ _ hk] at h'
      exact ⟨e', h', rfl, rfl⟩
  · intro k' e' h'
    by_cases hk : k' = k
    · subst hk
      rw [he] at h'
      cases h'
      exact ⟨f e, Dict.find?_insert_self _ _ _, (hf e).1, (hf e).2⟩
    · exact ⟨e', by rw [Dict.find?_insert_ne _ _ _ _ hk]; exact h', rfl, rfl⟩

/-- A vertex-field rewrite leaves edges and faces untouched and the
vertex key list unchanged. -/
theorem modifyV_shape {g g' : PlanarGraph} {k : ℕ} {f : Vertex → Vertex}
    (h : modifyV g k f = .ok g') :
    g'.edges = g.edges ∧ g'.faces = g.faces ∧
    g'.vertices.keyList = g.vertices.keyList ∧
    g'.infiniteFace = g.infiniteFace ∧ g'.mark1 = g.mark1 ∧ g'.mark2 = g.mark2 := by
  obtain ⟨v, hv, rfl⟩ := modifyV_eq_ok h
  exact ⟨rfl, rfl, Dict.keyList_insert_of_contains _ _ _ (Dict.contains_of_find? hv),
    rfl, rfl, rfl⟩

/-- A face-field rewrite leaves vertices and edges untouched and the face
key list unchanged. -/
theorem modifyF_shape {g g' : PlanarGraph} {k : ℕ} {f : Face → Face}
    (h : modifyF g k f = .ok g') :
    g'.vertices = g.vertices ∧ g'.edges = g.edges ∧
    g'.faces.keyList = g.faces.keyList ∧
    g'.infiniteFace = g.infiniteFace ∧ g'.mark1 = g.mark1 ∧ g'.mark2 = g.mark2 := by
  obtain ⟨fc, hfc, rfl⟩ := modifyF_eq_ok h
  exact ⟨rfl, rfl, Dict.keyList_insert_of_contains _ _ _ (Dict.contains_of_find? hfc),
    rfl, rfl, rfl⟩

/-- `removeEdgeFixOrigin` rewires pointers only: every key list, and the
origin/twin of every edge, are unchanged. -/
theorem removeEdgeFixOrigin_shape {g g' : PlanarGraph} {k : ℕ}
    (h : removeEdgeFixOrigin g k = .ok g') :
    g'.vertices.keyList = g.vertices.keyList ∧
    g'.edges.keyList = g.edges.keyList ∧
    g'.faces.keyList = g.faces.keyList ∧
    g'.infiniteFace = g.infiniteFace ∧ g'.mark1 = g.mark1 ∧ g'.mark2 = g.mark2 ∧
    EdgeOTSub g g' ∧ EdgeOTExt g g' := by
  unfold removeEdgeFixOrigin at h
  obtain ⟨e, he, h⟩ := except_bind_ok h
  obtain ⟨tw, htw, h⟩ := except_bind_ok h
  obtain ⟨te, hte, h⟩ := except_bind_ok h
  obtain ⟨ik, hik, h⟩ := except_bind_ok h
  obtain ⟨g1, hg1, h⟩ := except_bind_ok h
  obtain ⟨ok1, hok1, h⟩ := except_bind_ok h
  obtain ⟨g2, hg2, h⟩ := except_bind_ok h
  obtain ⟨fk, hfk, h⟩ := except_bind_ok h
  obtain ⟨g3, hg3, h⟩ := except_bind_ok h
  have s1 := modifyE_pointer_shape (by intro e'; exact ⟨rfl, rfl⟩) hg1
  have s2 := modifyE_pointer_shape (by intro e'; exact ⟨rfl, rfl⟩) hg2
  have s3 := modifyF_shape hg3
  have s4 := modifyV_shape h
  refine ⟨?_, ?_, ?_, ?_, ?_, ?_, ?_, ?_⟩
  · rw [s4.2.2.1, s3.1, s2.1, s1.1]
  · rw [s4.1, s3.2.1, s2.2.2.1, s1.2.2.1]
  · rw [s4.2.1, s3.2.2.1, s2.2.1, s1.2.1]
  · rw [s4.2.2.2.1, s3.2.2.2.1, s2.2.2.2.1, s1.2.2.2.1]
  · rw [s4.2.2.2.2.1, s3.2.2.2.2.1, s2.2.2.2.2.1, s1.2.2.2.2.1]
  · rw [s4.2.2.2.2.2, s3.2.2.2.2.2, s2.2.2.2.2.2.1, s1.2.2.2.2.2.1]
  · have hsub : EdgeOTSub g g2 := edgeOTSub_trans s1.2.2.2.2.2.2.1 s2.2.2.2.2.2.2.1
    intro k' e' h'
    rw [s4.1, s3.2.1] at h'
    exact hsub k' e' h'
  · have hext : EdgeOTExt g g2 := edgeOTExt_trans s1.2.2.2.2.2.2.2 s2.2.2.2.2.2.2.2
    intro k' e' h'
    obtain ⟨e2, h2, ho, ht⟩ := hext k' e' h'
    exact ⟨e2, by rw [s4.1, s3.2.1]; exact h2, ho, ht⟩

/-- The `incidentFace` relabelling fold of `removeEdge` rewires pointers
only. -/
theorem foldlM_relabel_shape (c : Option ℕ) :
    ∀ (l : List ℕ) (g g' : PlanarGraph),
      l.foldlM (fun g'' ek => modifyE g'' ek (fun e' => { e' with incidentFace := c })) g
        = .ok g' →
      g'.vertices = g.vertices ∧ g'.faces = g.faces ∧
      g'.edges.keyList = g.edges.keyList ∧
      g'.infiniteFace = g.infiniteFace ∧ g'.mark1 = g.mark1 ∧ g'.mark2 = g.mark2 ∧
      EdgeOTSub g g' ∧ EdgeOTExt g g'
  | [], g, g', h => by
    cases h
    exact ⟨rfl, rfl, rfl, rfl, rfl, rfl, edgeOTSub_refl g, edgeOTExt_refl g⟩
  | ek :: l, g, g', h => by
    rw [List.foldlM_cons] at h
    obtain ⟨g1, hg1, h⟩ := except_bind_ok h
    have s1 := modifyE_pointer_shape (by intro e'; exact ⟨rfl, rfl⟩) hg1
    have sr := foldlM_relabel_shape c l g1 g' h
    refine ⟨sr.1.trans s1.1, sr.2.1.trans s1.2.1, sr.2.2.1.trans s1.2.2.1,
      sr.2.2.2.1.trans s1.2.2.2.1, sr.2.2.2.2.1.trans s1.2.2.2.2.1,
      sr.2.2.2.2.2.1.trans s1.2.2.2.2.2.1,
      edgeOTSub_trans s1.2.2.2.2.2.2.1 sr.2.2.2.2.2.2.1,
      edgeOTExt_trans s1.2.2.2.2.2.2.2 sr.2.2.2.2.2.2.2⟩

/-- `getBoundaryEdgeKeys` only succeeds on a face key the graph
contains. -/
theorem getBoundaryEdgeKeys_face_contains {g : PlanarGraph} {fKey : ℕ} {l : List ℕ}
    (h : getBoundaryEdgeKeys g fKey = .ok l) : g.faces.contains fKey := by
  unfold getBoundaryEdgeKeys at h
  obtain ⟨face, hface, _⟩ := except_bind_ok h
  rw [getF_eq_ok] at hface
  exact Dict.contains_of_find? hface

/-- `removeEdge` deletes exactly the two half-edges of its argument and
one face, keeps all vertices, and rewires the surviving edges'
`next`/`prev`/`incidentFace` only. -/
theorem removeEdge_shape {g g' : PlanarGraph} {ek : ℕ}
    (h : removeEdge g ek = .ok g') :
    g'.vertices.keyList = g.vertices.keyList ∧
    g'.edges.size + 2 = g.edges.size ∧
    g'.faces.size + 1 = g.faces.size ∧
    g'.infiniteFace = g.infiniteFace ∧ g'.mark1 = g.mark1 ∧ g'.mark2 = g.mark2 ∧
    (EdgesNodup g → EdgeOTSub g g' ∧ EdgesNodup g') := by
  unfold removeEdge at h
  obtain ⟨e, he, h⟩ := except_bind_ok h
  obtain ⟨tw, htw, h⟩ := except_bind_ok h
  obtain ⟨te, hte, h⟩ := except_bind_ok h
  rw [getE_eq_ok] at he hte
  rw [req_eq_ok] at htw
  by_cases hne : e.incidentFace ≠ te.incidentFace
  · rw [if_pos hne] at h
    obtain ⟨delFaceKey, hdel, h⟩ := except_bind_ok h
    obtain ⟨newFaceEdges, hnfe, h⟩ := except_bind_ok h
    obtain ⟨g1, hg1, h⟩ := except_bind_ok h
    obtain ⟨g2, hg2, h⟩ := except_bind_ok h
    obtain ⟨g4, hg4, h⟩ := except_bind_ok h
    cases h
    have s1 := removeEdgeFixOrigin_shape hg1
    have s2 := removeEdgeFixOrigin_shape hg2
    have s4 := foldlM_relabel_shape _ _ _ _ hg4
    -- `tw ≠ ek`: otherwise the two lookups coincide and the face guard fails
    have hne' : tw ≠ ek := by
      intro hh
      subst hh
      rw [he] at hte
      cases hte
      exact hne rfl
    -- key lists are preserved up to the erasures
    have hekl : g4.edges.keyList = g.edges.keyList := by
      rw [s4.2.2.1]
      show ({ g2 with faces := g2.faces.erase delFaceKey } : PlanarGraph).edges.keyList = _
      rw [s2.2.1, s1.2.1]
    have hvkl : g4.vertices.keyList = g.vertices.keyList := by
      rw [s4.1]
      show ({ g2 with faces := g2.faces.erase delFaceKey } : PlanarGraph).vertices.keyList = _
      rw [s2.1, s1.1]
    have hfl : g4.faces = g2.faces.erase delFaceKey := by
      rw [s4.2.1]
    -- contains facts for the erasures
    have hcek : g4.edges.contains ek := by
      rw [Dict.contains_iff_mem_keyList, hekl, ← Dict.contains_iff_mem_keyList]
      exact Dict.contains_of_find? he
    have hctw : (g4.edges.erase ek).contains tw := by
      have : g4.edges.contains tw := by
        rw [Dict.contains_iff_mem_keyList, hekl, ← Dict.contains_iff_mem_keyList]
        exact Dict.contains_of_find? hte
      simp only [Dict.contains] at this ⊢
      rw [Dict.find?_erase_ne _ _ _ hne']
      exact this
    have hcdel : g2.faces.contains delFaceKey := by
      have hgc : g.faces.contains delFaceKey := getBoundaryEdgeKeys_face_contains hnfe
      rw [Dict.contains_iff_mem_keyList, s2.2.2.1, s1.2.2.1, ← Dict.contains_iff_mem_keyList]
      exact hgc
    refine ⟨hvkl, ?_, ?_, ?_, ?_, ?_, ?_⟩
    · show ((g4.edges.erase ek).erase tw).size + 2 = g.edges.size
      have h1 : (g4.edges.erase ek).size + 1 = g4.edges.size :=
        Dict.size_erase_of_contains _ _ hcek
      have h2 : ((g4.edges.erase ek).erase tw).size + 1 = (g4.edges.erase ek).size :=
        Dict.size_erase_of_contains _ _ hctw
      have h3 : g4.edges.size = g.edges.size := by
        rw [Dict.size_eq_keyList_length, Dict.size_eq_keyList_length, hekl]
      omega
    · show g4.faces.size + 1 = g.faces.size
      rw [hfl]
      have h1 : (g2.faces.erase delFaceKey).size + 1 = g2.faces.size :=
        Dict.size_erase_of_contains _ _ hcdel
      have h2 : g2.faces.size = g.faces.size := by
        rw [Dict.size_eq_keyList_length, Dict.size_eq_keyList_length, s2.2.2.1, s1.2.2.1]
      omega
    · show g4.infiniteFace = g.infiniteFace
      rw [s4.2.2.2.1]
      show ({ g2 with faces := g2.faces.erase delFaceKey } : PlanarGraph).infiniteFace = _
      rw [s2.2.2.2.1, s1.2.2.2.1]
    · show g4.mark1 = g.mark1
      rw [s4.2.2.2.2.1]
      show ({ g2 with faces := g2.faces.erase delFaceKey } : PlanarGraph).mark1 = _
      rw [s2.2.2.2.2.1, s1.2.2.2.2.1]
    · show g4.mark2 = g.mark2
      rw [s4.2.2.2.2.2.1]
      show ({ g2 with faces := g2.faces.erase delFaceKey } : PlanarGraph).mark2 = _
      rw [s2.2.2.2.2.2.1, s1.2.2.2.2.2.1]
    · intro hnd
      have hnd4 : g4.edges.keyList.Nodup := by rw [hekl]; exact hnd
      have hsub24 : EdgeOTSub g g4 := by
        have hsub2 : EdgeOTSub g g2 :=
          edgeOTSub_trans s1.2.2.2.2.2.2.1 s2.2.2.2.2.2.2.1
        have : EdgeOTSub g2 g4 := by
          intro k' e' h'
          exact s4.2.2.2.2.2.2.1 k' e' h'
        exact edgeOTSub_trans hsub2 this
      constructor
      · intro k' e' h'
        show ∃ e0, g.edges.find? k' = some e0 ∧ e'.origin = e0.origin ∧ e'.twin = e0.twin
        by_cases hk1 : k' = tw
        · subst hk1
          rw [Dict.find?_erase_self_of_nodup _ _
            ((Dict.keyList_erase_sublist g4.edges ek).nodup hnd4)] at h'
          cases h'
        · rw [Dict.find?_erase_ne _ _ _ hk1] at h'
          by_cases hk2 : k' = ek
          · subst hk2
            rw [Dict.find?_erase_self_of_nodup _ _ hnd4] at h'
            cases h'
          · rw [Dict.find?_erase_ne _ _ _ hk2] at h'
            exact hsub24 k' e' h'
      · show ((g4.edges.erase ek).erase tw).keyList.Nodup
        exact (Dict.keyList_erase_sublist _ tw).nodup
          ((Dict.keyList_erase_sublist g4.edges ek).nodup hnd4)
  · rw [if_neg hne] at h
    cases h

/-- A successful `removeEdgeFixOrigin` looked its argument up. -/
theorem removeEdgeFixOrigin_contains {g g' : PlanarGraph} {k : ℕ}
    (h : removeEdgeFixOrigin g k = .ok g') : g.edges.contains k := by
  unfold removeEdgeFixOrigin at h
  obtain ⟨e, he, _⟩ := except_bind_ok h
  rw [getE_eq_ok] at he
  exact Dict.contains_of_find? he

/-- Backward edge preservation carries the no-self-twin invariant. -/
theorem noSelfTwin_of_sub {g g' : PlanarGraph}
    (hsub : EdgeOTSub g g') (h : NoSelfTwin g) : NoSelfTwin g' := by
  intro k e' h'
  obtain ⟨e, he, _, ht⟩ := hsub k e' h'
  rw [ht]
  exact h k e he

/-- Size bookkeeping implies Euler preservation: `removeEdge` trades one
face for two half-edges, `removeLeafVertex` one vertex for two
half-edges, the connect operations the converse. -/
theorem euler_eq_of_sizes (dv de df : ℤ) {g g' : PlanarGraph}
    (hv : (g'.vertices.size : ℤ) = g.vertices.size + dv)
    (he : (g'.edges.size : ℤ) = g.edges.size + de)
    (hf : (g'.faces.size : ℤ) = g.faces.size + df)
    (hrel : 2 * dv + 2 * df - de = 0) : euler g' = euler g := by
  unfold euler
  have hv' : (g'.vertices.size : ℚ) = (g.vertices.size : ℚ) + dv := by exact_mod_cast hv
  have he' : (g'.edges.size : ℚ) = (g.edges.size : ℚ) + de := by exact_mod_cast he
  have hf' : (g'.faces.size : ℚ) = (g.faces.size : ℚ) + df := by exact_mod_cast hf
  have hrel' : 2 * (dv : ℚ) + 2 * df - de = 0 := by exact_mod_cast hrel
  rw [hv', he', hf']
  field_simp
  ring_nf
  ring_nf at hrel'
  linarith

/-- `removeLeafVertex` deletes exactly its vertex and the two half-edges
of its single outgoing edge. -/
theorem removeLeafVertex_shape {g g' : PlanarGraph} {vk : ℕ}
    (hnst : NoSelfTwin g) (h : removeLeafVertex g vk = .ok g') :
    g'.vertices.size + 1 = g.vertices.size ∧
    g'.edges.size + 2 = g.edges.size ∧
    g'.faces.keyList = g.faces.keyList ∧
    g'.infiniteFace = g.infiniteFace ∧ g'.mark1 = g.mark1 ∧ g'.mark2 = g.mark2 ∧
    (EdgesNodup g → EdgeOTSub g g' ∧ EdgesNodup g') := by
  unfold removeLeafVertex at h
  obtain ⟨out, hout, h⟩ := except_bind_ok h
  by_cases hlen : out.length = 1
  · rw [if_pos hlen] at h
    obtain ⟨v, hv, h⟩ := except_bind_ok h
    obtain ⟨ok0, hok0, h⟩ := except_bind_ok h
    obtain ⟨oe, hoe, h⟩ := except_bind_ok h
    obtain ⟨twk, htwk, h⟩ := except_bind_ok h
    obtain ⟨g1, hg1, h⟩ := except_bind_ok h
    cases h
    rw [getV_eq_ok] at hv
    rw [getE_eq_ok] at hoe
    rw [req_eq_ok] at hok0 htwk
    have s1 := removeEdgeFixOrigin_shape hg1
    have hne : twk ≠ ok0 := by
      intro hh
      rw [hh] at htwk
      exact hnst ok0 oe hoe htwk
    have hekl : g1.edges.keyList = g.edges.keyList := s1.2.1
    have hcok : g1.edges.contains ok0 := by
      rw [Dict.contains_iff_mem_keyList, hekl, ← Dict.contains_iff_mem_keyList]
      exact Dict.contains_of_find? hoe
    have hctw : (g1.edges.erase ok0).contains twk := by
      have hc : g.edges.contains twk := removeEdgeFixOrigin_contains hg1
      have : g1.edges.contains twk := by
        rw [Dict.contains_iff_mem_keyList, hekl, ← Dict.contains_iff_mem_keyList]
        exact hc
      simp only [Dict.contains] at this ⊢
      rw [Dict.find?_erase_ne _ _ _ hne]
      exact this
    have hcv : g1.vertices.contains vk := by
      rw [Dict.contains_iff_mem_keyList, s1.1, ← Dict.contains_iff_mem_keyList]
      exact Dict.contains_of_find? hv
    refine ⟨?_, ?_, ?_, s1.2.2.2.1, s1.2.2.2.2.1, s1.2.2.2.2.2.1, ?_⟩
    · show (g1.vertices.erase vk).size + 1 = g.vertices.size
      rw [Dict.size_erase_of_contains _ _ hcv, Dict.size_eq_keyList_length,
        Dict.size_eq_keyList_length, s1.1]
    · show ((g1.edges.erase ok0).erase twk).size + 2 = g.edges.size
      have h1 := Dict.size_erase_of_contains _ _ hcok
      have h2 := Dict.size_erase_of_contains _ _ hctw
      have h3 : g1.edges.size = g.edges.size := by
        rw [Dict.size_eq_keyList_length, Dict.size_eq_keyList_length, hekl]
      omega
    · exact s1.2.2.1
    · intro hnd
      have hnd1 : g1.edges.keyList.Nodup := by rw [hekl]; exact hnd
      constructor
      · intro k' e' h'
        show ∃ e0, g.edges.find? k' = some e0 ∧ e'.origin = e0.origin ∧ e'.twin = e0.twin
        by_cases hk1 : k' = twk
        · subst hk1
          rw [Dict.find?_erase_self_of_nodup _ _
            ((Dict.keyList_erase_sublist g1.edges ok0).nodup hnd1)] at h'
          cases h'
        · rw [Dict.find?_erase_ne _ _ _ hk1] at h'
          by_cases hk2 : k' = ok0
          · subst hk2
            rw [Dict.find?_erase_self_of_nodup _ _ hnd1] at h'
            cases h'
          · rw [Dict.find?_erase_ne _ _ _ hk2] at h'
            exact s1.2.2.2.2.2.2.1 k' e' h'
      · show ((g1.edges.erase ok0).erase twk).keyList.Nodup
        exact (Dict.keyList_erase_sublist _ twk).nodup
          ((Dict.keyList_erase_sublist g1.edges ok0).nodup hnd1)
  · rw [if_neg hlen] at h
    cases h

/-- One step of the `removeVertex` loop: either a successful `removeEdge`
or the leaf fallback; both preserve the Euler quantity, the no-self-twin
invariant and key nodup-ness. -/
theorem removeVertex_step {g g' : PlanarGraph} {vk ek : ℕ}
    (hnst : NoSelfTwin g) (hnd : EdgesNodup g)
    (h : (match removeEdge g ek with
          | .ok g2 => (.ok g2 : Except String PlanarGraph)
          | .error _ => removeLeafVertex g vk) = .ok g') :
    euler g' = euler g ∧ NoSelfTwin g' ∧ EdgesNodup g' := by
  cases hre : removeEdge g ek with
  | ok g2 =>
    rw [hre] at h
    cases h
    have s := removeEdge_shape hre
    obtain ⟨hsub, hnd'⟩ := s.2.2.2.2.2.2 hnd
    refine ⟨?_, noSelfTwin_of_sub hsub hnst, hnd'⟩
    refine euler_eq_of_sizes 0 (-2) (-1) ?_ ?_ ?_ (by ring)
    · rw [Dict.size_eq_keyList_length, Dict.size_eq_keyList_length, s.1]; omega
    · have := s.2.1; omega
    · have := s.2.2.1; omega
  | error msg =>
    rw [hre] at h
    have s := removeLeafVertex_shape hnst h
    obtain ⟨hsub, hnd'⟩ := s.2.2.2.2.2.2 hnd
    refine ⟨?_, noSelfTwin_of_sub hsub hnst, hnd'⟩
    refine euler_eq_of_sizes (-1) (-2) 0 ?_ ?_ ?_ (by ring)
    · have := s.1; omega
    · have := s.2.1; omega
    · rw [Dict.size_eq_keyList_length, Dict.size_eq_keyList_length, s.2.2.1]; omega

/-- The `removeVertex` fold preserves the Euler quantity. -/
theorem removeVertex_fold_euler :
    ∀ (eks : List ℕ) (g g' : PlanarGraph) (vk : ℕ),
      NoSelfTwin g → EdgesNodup g →
      eks.foldlM
        (fun g'' eKey =>
          match removeEdge g'' eKey with
          | .ok g2 => (.ok g2 : Except String PlanarGraph)
          | .error _ => removeLeafVertex g'' vk) g = .ok g' →
      euler g' = euler g
  | [], g, g', vk, _, _, h => by cases h; rfl
  | ek :: eks, g, g', vk, hnst, hnd, h => by
    rw [List.foldlM_cons] at h
    obtain ⟨g1, hg1, h⟩ := except_bind_ok h
    obtain ⟨he, hnst1, hnd1⟩ := removeVertex_step hnst hnd hg1
    rw [removeVertex_fold_euler eks g1 g' vk hnst1 hnd1 h, he]

/-- `removeVertex` preserves the Euler quantity on graphs satisfying the
twin invariants. -/
theorem removeVertex_euler {g g' : PlanarGraph} {vk : ℕ}
    (hnst : NoSelfTwin g) (hnd : EdgesNodup g)
    (h : removeVertex g vk = .ok g') : euler g' = euler g := by
  unfold removeVertex at h
  obtain ⟨eks, _, h⟩ := except_bind_ok h
  exact removeVertex_fold_euler eks g g' vk hnst hnd h

theorem liftE_eq_ok {α : Type} {x : Except String α} {n : ℕ} {a : α} {n' : ℕ}
    (h : liftE x n = (.ok a, n')) : x = .ok a ∧ n' = n := by
  unfold liftE at h
  exact ⟨congrArg Prod.fst h, (congrArg Prod.snd h).symm⟩

theorem getSlug_eq {n s n' : ℕ} (h : getSlug n = (.ok s, n')) :
    s = n + 1 ∧ n' = n + 1 := by
  unfold getSlug at h
  have h1 := congrArg Prod.fst h
  have h2 := congrArg Prod.snd h
  simp only at h1 h2
  exact ⟨(Except.ok.inj h1).symm, h2.symm⟩

theorem throwS_ne_ok {α : Type} {msg : String} {n : ℕ} {a : α} {n' : ℕ}
    (h : throwS msg n = (.ok a, n')) : False := by
  unfold throwS at h
  have h1 := congrArg Prod.fst h
  simp only at h1
  cases h1

/-- `begin` builds the fresh two-vertex graph: Euler 2, keys below the
advanced counter. -/
theorem begin_shape {c1 c2 : Coord} {n n' : ℕ} {g' : PlanarGraph}
    (h : begin c1 c2 n = (.ok g', n')) :
    n' = n + 4 ∧ euler g' = 2 ∧ KeysBelow g' n' ∧ n ≤ n' := by
  unfold begin at h
  simp only [Bind.bind, SlugM.seq, getSlug, pure, SlugM.mk] at h
  have hn : n' = n + 4 := (congrArg Prod.snd h).symm
  have hg : g' =
      { infiniteFace := 0
        vertices := ((Dict.empty.insert (n+1)
          { x := c1.x, y := c1.y, incidentEdge := some (n+3), colors := ALL_COLORS }).insert (n+2)
          { x := c2.x, y := c2.y, incidentEdge := some (n+4), colors := ALL_COLORS })
        edges := ((Dict.empty.insert (n+3)
          { twin := some (n+4), next := some (n+4), prev := some (n+4),
            origin := n+1, incidentFace := some 0 }).insert (n+4)
          { twin := some (n+3), next := some (n+3), prev := some (n+3),
            origin := n+2, incidentFace := some 0 })
        faces := Dict.empty.insert 0 { infinite := true, incidentEdge := some (n+3) } } := by
    have h1 := congrArg Prod.fst h
    simp only at h1
    exact (Except.ok.inj h1).symm
  subst hg hn
  have hv := Dict.keyList_pair (n + 1) (n + 2)
    ({ x := c1.x, y := c1.y, incidentEdge := some (n+3), colors := ALL_COLORS } : Vertex)
    { x := c2.x, y := c2.y, incidentEdge := some (n+4), colors := ALL_COLORS } (by omega)
  have he := Dict.keyList_pair (n + 3) (n + 4)
    ({ twin := some (n+4), next := some (n+4), prev := some (n+4),
       origin := n+1, incidentFace := some 0 } : HalfEdge)
    { twin := some (n+3), next := some (n+3), prev := some (n+3),
      origin := n+2, incidentFace := some 0 } (by omega)
  refine ⟨rfl, ?_, ?_, by omega⟩
  · unfold euler
    rw [Dict.size_eq_keyList_length, Dict.size_eq_keyList_length,
      Dict.size_eq_keyList_length, hv, he]
    norm_num [Dict.insert, Dict.empty, Dict.keyList]
  · refine ⟨?_, ?_, ?_⟩
    · intro k hk
      rw [hv] at hk
      simp only [List.mem_cons, List.not_mem_nil, or_false] at hk
      omega
    · intro k hk
      rw [he] at hk
      simp only [List.mem_cons, List.not_mem_nil, or_false] at hk
      omega
    · intro k hk
      simp only [Dict.keyList, Dict.insert, Dict.empty, List.map, List.mem_singleton] at hk
      omega

/-- `connectNewVertex` adds one fresh vertex and one fresh half-edge pair
and rewires two existing edges; faces are untouched. -/
theorem connectNewVertex_shape {g : PlanarGraph} {vKey : ℕ} {nv : Coord}
    {n n' : ℕ} {g' : PlanarGraph} (hkb : KeysBelow g n)
    (h : connectNewVertex g vKey nv n = (.ok g', n')) :
    n' = n + 3 ∧
    g'.vertices.size = g.vertices.size + 1 ∧
    g'.edges.size = g.edges.size + 2 ∧
    g'.faces = g.faces ∧
    KeysBelow g' n' ∧ n ≤ n' := by
  unfold connectNewVertex at h
  obtain ⟨ov, n0, hov, h⟩ := slugm_bind_eq_ok h
  obtain ⟨hov', hn0⟩ := liftE_eq_ok hov
  obtain ⟨bfk?, n1, hbf, h⟩ := slugm_bind_eq_ok h
  obtain ⟨hbf', hn1⟩ := liftE_eq_ok hbf
  cases bfk? with
  | none => exact absurd h throwS_ne_ok
  | some bfk =>
    obtain ⟨s1v, n2, hs1, h⟩ := slugm_bind_eq_ok h
    obtain ⟨hs1v, hn2⟩ := getSlug_eq hs1
    obtain ⟨oldVertex, n3, holdv, h⟩ := slugm_bind_eq_ok h
    obtain ⟨holdv', hn3⟩ := liftE_eq_ok holdv
    obtain ⟨ook, n4, hook, h⟩ := slugm_bind_eq_ok h
    obtain ⟨hook', hn4⟩ := liftE_eq_ok hook
    obtain ⟨ooe, n5, hooe, h⟩ := slugm_bind_eq_ok h
    obtain ⟨hooe', hn5⟩ := liftE_eq_ok hooe
    obtain ⟨oik, n6, hoik, h⟩ := slugm_bind_eq_ok h
    obtain ⟨hoik', hn6⟩ := liftE_eq_ok hoik
    obtain ⟨oie, n7, hoie, h⟩ := slugm_bind_eq_ok h
    obtain ⟨hoie', hn7⟩ := liftE_eq_ok hoie
    obtain ⟨s2v, n8, hs2, h⟩ := slugm_bind_eq_ok h
    obtain ⟨hs2v, hn8⟩ := getSlug_eq hs2
    obtain ⟨s3v, n9, hs3, h⟩ := slugm_bind_eq_ok h
    obtain ⟨hs3v, hn9⟩ := getSlug_eq hs3
    obtain ⟨g1, n10, hg1, h⟩ := slugm_bind_eq_ok h
    obtain ⟨hg1', hn10⟩ := liftE_eq_ok hg1
    obtain ⟨g2, n11, hg2, h⟩ := slugm_bind_eq_ok h
    obtain ⟨hg2', hn11⟩ := liftE_eq_ok hg2
    have hgfin := congrArg Prod.fst h
    have hnfin := congrArg Prod.snd h
    simp only [pure, SlugM.mk] at hgfin hnfin
    have hg' := (Except.ok.inj hgfin).symm
    subst hg'
    have e1 : s1v = n + 1 := by omega
    have e2 : s2v = n + 2 := by omega
    have e3 : s3v = n + 3 := by omega
    have en : n' = n + 3 := by omega
    subst e1
    subst e2
    subst e3
    subst en
    have s1 := modifyE_pointer_shape (by intro e'; exact ⟨rfl, rfl⟩) hg1'
    have s2 := modifyE_pointer_shape (by intro e'; exact ⟨rfl, rfl⟩) hg2'
    have hvd : g2.vertices = g.vertices := s2.1.trans s1.1
    have hfd : g2.faces = g.faces := s2.2.1.trans s1.2.1
    have hekl : g2.edges.keyList = g.edges.keyList := s2.2.2.1.trans s1.2.2.1
    have hnv : ¬ g2.vertices.contains (n + 1) := by
      rw [hvd]
      exact Dict.not_contains_of_gt _ _ n hkb.1 (by omega)
    have hne2 : ¬ g2.edges.contains (n + 2) := by
      intro hc
      rw [Dict.contains_iff_mem_keyList, hekl] at hc
      exact absurd (hkb.2.1 _ hc) (by omega)
    have hne3 : ¬ (g2.edges.insert (n + 2)
        { origin := vKey, prev := some oik, twin := some (n + 3),
          next := some (n + 3), incidentFace := some bfk }).contains (n + 3) := by
      intro hc
      rw [Dict.contains_iff_mem_keyList,
        Dict.keyList_insert_of_not_contains _ _ _ hne2, List.mem_append] at hc
      rcases hc with hc | hc
      · rw [hekl] at hc
        exact absurd (hkb.2.1 _ hc) (by omega)
      · simp at hc
    refine ⟨rfl, ?_, ?_, hfd, ?_, by omega⟩
    · show (g2.vertices.insert (n + 1) _).size = _
      rw [Dict.size_insert_of_not_contains _ _ _ hnv, hvd]
    · show ((g2.edges.insert (n + 2) _).insert (n + 3) _).size = _
      rw [Dict.size_insert_of_not_contains _ _ _ hne3,
        Dict.size_insert_of_not_contains _ _ _ hne2,
        Dict.size_eq_keyList_length, Dict.size_eq_keyList_length, hekl]
    · refine ⟨?_, ?_, ?_⟩
      · intro k hk
        show k ≤ n + 3
        rw [Dict.keyList_insert_of_not_contains _ _ _ hnv, List.mem_append, hvd] at hk
        rcases hk with hk | hk
        · exact le_trans (hkb.1 _ hk) (by omega)
        · simp at hk
          omega
      · intro k hk
        show k ≤ n + 3
        rw [Dict.keyList_insert_of_not_contains _ _ _ hne3, List.mem_append,
          Dict.keyList_insert_of_not_contains _ _ _ hne2, List.mem_append, hekl] at hk
        rcases hk with (hk | hk) | hk
        · exact le_trans (hkb.2.1 _ hk) (by omega)
        · simp at hk
          omega
        · simp at hk
          omega
      · intro k hk
        show k ≤ n + 3
        rw [hfd] at hk
        exact le_trans (hkb.2.2 _ hk) (by omega)

/-- The face-relabel walk at the end of `connect` rewires `incidentFace`
pointers only. -/
theorem connect_relabel_shape (nfeK nfs : ℕ) :
    ∀ (fuel cur : ℕ) (g : PlanarGraph) (n n' : ℕ) (g' : PlanarGraph),
      connect.relabel nfeK nfs fuel cur g n = (.ok g', n') →
      n' = n ∧ g'.vertices = g.vertices ∧ g'.faces = g.faces ∧
      g'.edges.keyList = g.edges.keyList ∧ EdgeOTSub g g' ∧ EdgeOTExt g g'
  | 0, cur, g, n, n', g', h => absurd h throwS_ne_ok
  | fuel + 1, cur, g, n, n', g', h => by
    rw [connect.relabel] at h
    by_cases hc : cur = nfeK
    · rw [if_pos hc] at h
      have h1 := congrArg Prod.fst h
      have h2 := congrArg Prod.snd h
      simp only [pure, SlugM.mk] at h1 h2
      have hg := Except.ok.inj h1
      subst hg
      exact ⟨h2.symm, rfl, rfl, rfl, edgeOTSub_refl g, edgeOTExt_refl g⟩
    · rw [if_neg hc] at h
      obtain ⟨g1, n1, hg1, h⟩ := slugm_bind_eq_ok h
      obtain ⟨hg1', hn1⟩ := liftE_eq_ok hg1
      obtain ⟨ce, n2, hce, h⟩ := slugm_bind_eq_ok h
      obtain ⟨_, hn2⟩ := liftE_eq_ok hce
      obtain ⟨nxt, n3, hnxt, h⟩ := slugm_bind_eq_ok h
      obtain ⟨_, hn3⟩ := liftE_eq_ok hnxt
      have s1 := modifyE_pointer_shape (by intro e'; exact ⟨rfl, rfl⟩) hg1'
      have sr := connect_relabel_shape nfeK nfs fuel nxt g1 n3 n' g' h
      refine ⟨by omega, sr.2.1.trans s1.1, sr.2.2.1.trans s1.2.1,
        sr.2.2.2.1.trans s1.2.2.1,
        edgeOTSub_trans s1.2.2.2.2.2.2.1 sr.2.2.2.2.1,
        edgeOTExt_trans s1.2.2.2.2.2.2.2 sr.2.2.2.2.2⟩

theorem edgeOTExt_of_edges_eq {g g' : PlanarGraph} (h : g'.edges = g.edges) :
    EdgeOTExt g g' := fun k e hk => ⟨e, by rw [h]; exact hk, rfl, rfl⟩

theorem edgeOTExt_insert_fresh {g : PlanarGraph} {k : ℕ} {e : HalfEdge}
    (hfresh : ¬ g.edges.contains k) :
    EdgeOTExt g { g with edges := g.edges.insert k e } := by
  intro k' e' h'
  have hne : k' ≠ k := fun hh => hfresh (hh ▸ Dict.contains_of_find? h')
  refine ⟨e', ?_, rfl, rfl⟩
  show (g.edges.insert k e).find? k' = some e'
  rw [Dict.find?_insert_ne _ _ _ _ hne]
  exact h'

/-- `connect` adds one fresh half-edge pair and one fresh face, leaves the
vertex map untouched, and preserves the origin/twin of every existing
edge. -/
theorem connect_shape {g : PlanarGraph} {k1 k2 : ℕ} {n n' : ℕ} {g' : PlanarGraph}
    (hkb : KeysBelow g n) (h : connect g k1 k2 n = (.ok g', n')) :
    n' = n + 3 ∧
    g'.vertices = g.vertices ∧
    g'.edges.size = g.edges.size + 2 ∧
    g'.faces.size = g.faces.size + 1 ∧
    KeysBelow g' n' ∧ n ≤ n' ∧ EdgeOTExt g g' := by
  unfold connect at h
  obtain ⟨adj, m0, hadj, h⟩ := slugm_bind_eq_ok h
  obtain ⟨hadj', hm0⟩ := liftE_eq_ok hadj
  by_cases hcon : adj.contains k2 = true
  · rw [if_pos hcon] at h
    exact absurd h throwS_ne_ok
  · rw [if_neg hcon] at h
    obtain ⟨v1, m1, hv1, h⟩ := slugm_bind_eq_ok h
    obtain ⟨hv1', hm1⟩ := liftE_eq_ok hv1
    obtain ⟨v2, m2, hv2, h⟩ := slugm_bind_eq_ok h
    obtain ⟨hv2', hm2⟩ := liftE_eq_ok hv2
    obtain ⟨bf?, m3, hbf?, h⟩ := slugm_bind_eq_ok h
    obtain ⟨hbf?', hm3⟩ := liftE_eq_ok hbf?
    cases bf? with
    | none => exact absurd h throwS_ne_ok
    | some boundingFace =>
      obtain ⟨e1Key, m4, he1k, h⟩ := slugm_bind_eq_ok h
      obtain ⟨he1k', hm4⟩ := liftE_eq_ok he1k
      obtain ⟨e1, m5, he1, h⟩ := slugm_bind_eq_ok h
      obtain ⟨he1', hm5⟩ := liftE_eq_ok he1
      obtain ⟨e2Key, m6, he2k, h⟩ := slugm_bind_eq_ok h
      obtain ⟨he2k', hm6⟩ := liftE_eq_ok he2k
      obtain ⟨e2, m7, he2, h⟩ := slugm_bind_eq_ok h
      obtain ⟨he2', hm7⟩ := liftE_eq_ok he2
      obtain ⟨s1v, m8, hs1, h⟩ := slugm_bind_eq_ok h
      obtain ⟨hs1v, hm8⟩ := getSlug_eq hs1
      obtain ⟨s2v, m9, hs2, h⟩ := slugm_bind_eq_ok h
      obtain ⟨hs2v, hm9⟩ := getSlug_eq hs2
      obtain ⟨e1prev, m10, he1p, h⟩ := slugm_bind_eq_ok h
      obtain ⟨he1p', hm10⟩ := liftE_eq_ok he1p
      obtain ⟨gA, m11, hgA, h⟩ := slugm_bind_eq_ok h
      obtain ⟨hgA', hm11⟩ := liftE_eq_ok hgA
      obtain ⟨gB, m12, hgB, h⟩ := slugm_bind_eq_ok h
      obtain ⟨hgB', hm12⟩ := liftE_eq_ok hgB
      obtain ⟨e2cur, m13, he2c, h⟩ := slugm_bind_eq_ok h
      obtain ⟨he2c', hm13⟩ := liftE_eq_ok he2c
      obtain ⟨e2prev, m14, he2p, h⟩ := slugm_bind_eq_ok h
      obtain ⟨he2p', hm14⟩ := liftE_eq_ok he2p
      obtain ⟨gC, m15, hgC, h⟩ := slugm_bind_eq_ok h
      obtain ⟨hgC', hm15⟩ := liftE_eq_ok hgC
      obtain ⟨gD, m16, hgD, h⟩ := slugm_bind_eq_ok h
      obtain ⟨hgD', hm16⟩ := liftE_eq_ok hgD
      obtain ⟨bf, m17, hbf, h⟩ := slugm_bind_eq_ok h
      obtain ⟨hbf', hm17⟩ := liftE_eq_ok hbf
      obtain ⟨nfeKey, m18, hnfeK, h⟩ := slugm_bind_eq_ok h
      obtain ⟨hnfeK', hm18⟩ := liftE_eq_ok hnfeK
      obtain ⟨nfe, m19, hnfe, h⟩ := slugm_bind_eq_ok h
      obtain ⟨hnfe', hm19⟩ := liftE_eq_ok hnfe
      obtain ⟨gF, m20, hgF, h⟩ := slugm_bind_eq_ok h
      obtain ⟨hgF', hm20⟩ := liftE_eq_ok hgF
      obtain ⟨s3v, m21, hs3, h⟩ := slugm_bind_eq_ok h
      obtain ⟨hs3v, hm21⟩ := getSlug_eq hs3
      obtain ⟨nfeTwin, m22, hnft, h⟩ := slugm_bind_eq_ok h
      obtain ⟨hnft', hm22⟩ := liftE_eq_ok hnft
      obtain ⟨gG, m23, hgG, h⟩ := slugm_bind_eq_ok h
      obtain ⟨hgG', hm23⟩ := liftE_eq_ok hgG
      obtain ⟨gH, m24, hgH, h⟩ := slugm_bind_eq_ok h
      obtain ⟨hgH', hm24⟩ := liftE_eq_ok hgH
      obtain ⟨start, m25, hst, h⟩ := slugm_bind_eq_ok h
      obtain ⟨hst', hm25⟩ := liftE_eq_ok hst
      obtain ⟨gI, m26, hgI, h⟩ := slugm_bind_eq_ok h
      have hgfin := congrArg Prod.fst h
      have hnfin := congrArg Prod.snd h
      simp only [pure, SlugM.mk] at hgfin hnfin
      have hg' := (Except.ok.inj hgfin)
      have srel := connect_relabel_shape _ _ _ _ _ _ _ _ hgI
      have sA := modifyE_pointer_shape (by intro e'; exact ⟨rfl, rfl⟩) hgA'
      have sB := modifyE_pointer_shape (by intro e'; exact ⟨rfl, rfl⟩) hgB'
      have sC := modifyE_pointer_shape (by intro e'; exact ⟨rfl, rfl⟩) hgC'
      have sD := modifyE_pointer_shape (by intro e'; exact ⟨rfl, rfl⟩) hgD'
      have sF := modifyF_shape hgF'
      have sG := modifyE_pointer_shape (by intro e'; exact ⟨rfl, rfl⟩) hgG'
      have sH := modifyE_pointer_shape (by intro e'; exact ⟨rfl, rfl⟩) hgH'
      -- counter values
      have es1 : s1v = n + 1 := by omega
      have es2 : s2v = n + 2 := by omega
      have es3 : s3v = n + 3 := by omega
      have en' : n' = n + 3 := by omega
      subst es1
      subst es2
      subst es3
      -- the graph after inserting the two fresh half-edges
      have hvD : gD.vertices = g.vertices := by
        rw [sD.1, sC.1, sB.1, sA.1]
      have hfD : gD.faces = g.faces := by
        rw [sD.2.1, sC.2.1, sB.2.1, sA.2.1]
      have heklD : gD.edges.keyList = g.edges.keyList := by
        rw [sD.2.2.1, sC.2.2.1, sB.2.2.1, sA.2.2.1]
      have hextD : EdgeOTExt g gD :=
        edgeOTExt_trans sA.2.2.2.2.2.2.2 (edgeOTExt_trans sB.2.2.2.2.2.2.2
          (edgeOTExt_trans sC.2.2.2.2.2.2.2 sD.2.2.2.2.2.2.2))
      have hfresh1 : ¬ gD.edges.contains (n + 1) := by
        intro hc
        rw [Dict.contains_iff_mem_keyList, heklD] at hc
        exact absurd (hkb.2.1 _ hc) (by omega)
      have hfresh2 : ¬ (gD.edges.insert (n + 1)
          { origin := k1, next := some e2Key, prev := e1.prev,
            twin := some (n + 2), incidentFace := some boundingFace }).contains (n + 2) := by
        intro hc
        rw [Dict.contains_iff_mem_keyList,
          Dict.keyList_insert_of_not_contains _ _ _ hfresh1, List.mem_append] at hc
        rcases hc with hc | hc
        · rw [heklD] at hc
          exact absurd (hkb.2.1 _ hc) (by omega)
        · simp at hc
      -- shape of the edge map from gD to the final graph
      have heklH : gH.edges.keyList = gD.edges.keyList ++ [n + 1] ++ [n + 2] := by
        rw [sH.2.2.1, sG.2.2.1, sF.2.1]
        show ((gD.edges.insert (n+1) _).insert (n+2) _).keyList = _
        rw [Dict.keyList_insert_of_not_contains _ _ _ hfresh2,
          Dict.keyList_insert_of_not_contains _ _ _ hfresh1]
      have hvH : gH.vertices = g.vertices := by
        rw [sH.1, sG.1, sF.1]
        exact hvD
      have hfklH : gH.faces.keyList = g.faces.keyList := by
        rw [sH.2.1, sG.2.1, sF.2.2.1]
        show gD.faces.keyList = g.faces.keyList
        exact congrArg Dict.keyList hfD
      have hextH : EdgeOTExt g gH := by
        refine edgeOTExt_trans hextD (edgeOTExt_trans ?_
          (edgeOTExt_trans (edgeOTExt_of_edges_eq sF.2.1)
            (edgeOTExt_trans sG.2.2.2.2.2.2.2 sH.2.2.2.2.2.2.2)))
        exact edgeOTExt_trans (edgeOTExt_insert_fresh hfresh1)
          (edgeOTExt_insert_fresh hfresh2)
      have hfresh3 : ¬ gI.faces.contains (n + 3) := by
        intro hc
        rw [Dict.contains_iff_mem_keyList, srel.2.2.1, hfklH] at hc
        exact absurd (hkb.2.2 _ hc) (by omega)
      subst en'
      have hg'' := hg'.symm
      subst hg''
      refine ⟨rfl, ?_, ?_, ?_, ?_, by omega, ?_⟩
      · show gI.vertices = g.vertices
        rw [srel.2.1]
        exact hvH
      · show gI.edges.size = g.edges.size + 2
        rw [Dict.size_eq_keyList_length, srel.2.2.2.1, heklH, heklD,
          Dict.size_eq_keyList_length]
        simp
      · show (gI.faces.insert (n + 3) _).size = g.faces.size + 1
        rw [Dict.size_insert_of_not_contains _ _ _ hfresh3,
          Dict.size_eq_keyList_length, srel.2.2.1, hfklH, Dict.size_eq_keyList_length]
      · refine ⟨?_, ?_, ?_⟩
        · intro k hk
          show k ≤ n + 3
          rw [srel.2.1, hvH] at hk
          exact le_trans (hkb.1 _ hk) (by omega)
        · intro k hk
          show k ≤ n + 3
          rw [srel.2.2.2.1, heklH, heklD] at hk
          rcases List.mem_append.mp hk with hk | hk
          · rcases List.mem_append.mp hk with hk | hk
            · exact le_trans (hkb.2.1 _ hk) (by omega)
            · simp at hk
              omega
          · simp at hk
            omega
        · intro k hk
          show k ≤ n + 3
          rw [Dict.keyList_insert_of_not_contains _ _ _ hfresh3] at hk
          rcases List.mem_append.mp hk with hk | hk
          · rw [srel.2.2.1, hfklH] at hk
            exact le_trans (hkb.2.2 _ hk) (by omega)
          · simp at hk
            omega
      · exact edgeOTExt_trans hextH
          (edgeOTExt_trans srel.2.2.2.2.2 (edgeOTExt_of_edges_eq rfl))

/-- Entry membership from a successful lookup. -/
theorem Dict.find?_mem {α : Type} {d : Dict α} {k : ℕ} {v : α}
    (h : d.find? k = some v) : (k, v) ∈ d.entries := by
  induction d with
  | nil => simp [Dict.find?] at h
  | cons hd tl ih =>
    by_cases hk : hd.1 = k
    · simp only [Dict.find?, if_pos hk] at h
      cases h
      subst hk
      exact List.mem_cons_self _ _
    · simp only [Dict.find?, if_neg hk] at h
      exact List.mem_cons_of_mem _ (ih h)

/-- The no-self-twin invariant follows from the decidable entrywise
check. -/
theorem noSelfTwin_of_entries {g : PlanarGraph}
    (h : ∀ p ∈ g.edges.entries, p.2.twin ≠ some p.1) :
    NoSelfTwin g :=
  fun k e hf => h (k, e) (Dict.find?_mem hf)

instance (g : PlanarGraph) (n : ℕ) : Decidable (KeysBelow g n) := by
  unfold KeysBelow
  infer_instance

instance (g : PlanarGraph) : Decidable (EdgesNodup g) := by
  unfold EdgesNodup
  infer_instance

/-- `addEdge` preserves Euler's formula in all four of its cases. -/
theorem addEdge_euler {g : PlanarGraph} {c1 c2 : Coord} {n n' : ℕ} {g' : PlanarGraph}
    (hkb : KeysBelow g n) (he : euler g = 2)
    (h : addEdge g c1 c2 n = (.ok g', n')) : euler g' = 2 := by
  unfold addEdge at h
  cases hv1 : getVertexKey g c1 with
  | none =>
    cases hv2 : getVertexKey g c2 with
    | none =>
      rw [hv1, hv2] at h
      by_cases hlen : g.vertices.jsValues.length > 0
      · rw [if_pos hlen] at h
        exact absurd h throwS_ne_ok
      · rw [if_neg hlen] at h
        exact (begin_shape h).2.1
    | some k2 =>
      rw [hv1, hv2] at h
      have s := connectNewVertex_shape hkb h
      rw [← he]
      refine euler_eq_of_sizes 1 2 0 ?_ ?_ ?_ (by ring)
      · rw [s.2.1]; push_cast; ring
      · rw [s.2.2.1]; push_cast; ring
      · rw [s.2.2.2.1]; push_cast; ring
  | some k1 =>
    cases hv2 : getVertexKey g c2 with
    | none =>
      rw [hv1, hv2] at h
      have s := connectNewVertex_shape hkb h
      rw [← he]
      refine euler_eq_of_sizes 1 2 0 ?_ ?_ ?_ (by ring)
      · rw [s.2.1]; push_cast; ring
      · rw [s.2.2.1]; push_cast; ring
      · rw [s.2.2.2.1]; push_cast; ring
    | some k2 =>
      rw [hv1, hv2] at h
      have s := connect_shape hkb h
      rw [← he]
      refine euler_eq_of_sizes 0 2 1 ?_ ?_ ?_ (by ring)
      · rw [s.2.1]; push_cast; ring
      · rw [s.2.2.1]; push_cast; ring
      · rw [s.2.2.2.1]; push_cast; ring

/-- C2: Euler's formula `V − E + F = 2` (with `E` = half-edges / 2) holds
after every completed structural mutation on a graph satisfying the
relevant DCEL invariants: all four cases of `addEdge` (given the
slug-counter freshness invariant `KeysBelow`), `removeEdge`
(unconditionally — its own face guard supplies everything needed), and
`removeVertex` (given the twin invariants used by its leaf fallback). -/
theorem c2_euler_after_mutations :
    (∀ (g : PlanarGraph) (c1 c2 : Coord) (n : ℕ) (g' : PlanarGraph) (n' : ℕ),
      KeysBelow g n → euler g = 2 →
      addEdge g c1 c2 n = (.ok g', n') → euler g' = 2) ∧
    (∀ (g : PlanarGraph) (ek : ℕ) (g' : PlanarGraph),
      euler g = 2 → removeEdge g ek = .ok g' → euler g' = 2) ∧
    (∀ (g : PlanarGraph) (vk : ℕ) (g' : PlanarGraph),
      NoSelfTwin g → EdgesNodup g → euler g = 2 →
      removeVertex g vk = .ok g' → euler g' = 2) := by
  refine ⟨fun g c1 c2 n g' n' hkb he h => addEdge_euler hkb he h, ?_, ?_⟩
  · intro g ek g' he h
    have s := removeEdge_shape h
    rw [← he]
    refine euler_eq_of_sizes 0 (-2) (-1) ?_ ?_ ?_ (by ring)
    · rw [Dict.size_eq_keyList_length, Dict.size_eq_keyList_length, s.1]; ring
    · have := s.2.1; omega
    · have := s.2.2.1; omega
  · intro g vk g' hnst hnd he h
    rw [removeVertex_euler hnst hnd h, he]

/-- Witness for C2: the three mutation kinds at concrete fixtures — the
face-splitting `addEdge` that closes the triangle from the path, a
`removeEdge` on the triangle, and a `removeVertex` of the triangle's apex
(which exercises both the ordinary and the leaf-fallback branch of the
loop). -/
theorem c2_euler_after_mutations_witness :
    euler gTri = 2 ∧
    (∃ g', removeEdge gTri 8 = .ok g' ∧ euler g' = 2) ∧
    (∃ g', removeVertex gTri 2 = .ok g' ∧ euler g' = 2) := by
  refine ⟨?_, ?_, ?_⟩
  · exact c2_euler_after_mutations.1 gPath ⟨0, 0⟩ ⟨2, 0⟩ 7 gTri 10
      (by with_unfolding_all decide) (by with_unfolding_all decide)
      (by with_unfolding_all decide)
  · refine ⟨(removeEdge gTri 8).toOption.getD createEmptyPlanarGraph, ?_, ?_⟩
    · with_unfolding_all decide
    · exact c2_euler_after_mutations.2.1 gTri 8 _
        (by with_unfolding_all decide) (by with_unfolding_all decide)
  · refine ⟨(removeVertex gTri 2).toOption.getD createEmptyPlanarGraph, ?_, ?_⟩
    · with_unfolding_all decide
    · exact c2_euler_after_mutations.2.2 gTri 2 _
        (noSelfTwin_of_entries (by with_unfolding_all decide))
        (by with_unfolding_all decide) (by with_unfolding_all decide)
        (by with_unfolding_all decide)

/-! ## C4 — `triangulate` only adds edges, and its result is triangulated -/

theorem Dict.mem_sortedInsert (k x : ℕ) (l : List ℕ) :
    x ∈ Dict.sortedInsert k l ↔ x = k ∨ x ∈ l := by
  induction l with
  | nil => simp [Dict.sortedInsert]
  | cons hd tl ih =>
    by_cases hle : k ≤ hd
    · simp [Dict.sortedInsert, hle]
    · simp [Dict.sortedInsert, hle, ih]
      tauto

theorem Dict.mem_sortAsc (x : ℕ) (l : List ℕ) : x ∈ Dict.sortAsc l ↔ x ∈ l := by
  induction l with
  | nil => simp [Dict.sortAsc]
  | cons hd tl ih =>
    show x ∈ Dict.sortedInsert hd (Dict.sortAsc tl) ↔ _
    rw [Dict.mem_sortedInsert]
    simp [ih]

theorem Dict.mem_jsKeys {α : Type} (d : Dict α) (k : ℕ) :
    k ∈ d.jsKeys ↔ k ∈ d.keyList := by
  unfold Dict.jsKeys
  rw [List.mem_append]
  constructor
  · rintro (h | h)
    · exact (Dict.mem_sortAsc _ _).mp (List.mem_of_mem_filter h)
    · exact (Dict.mem_sortAsc _ _).mp (List.mem_of_mem_filter h)
  · intro h
    by_cases h0 : k = 0
    · right
      rw [List.mem_filter]
      exact ⟨(Dict.mem_sortAsc _ _).mpr h, by simp [h0]⟩
    · left
      rw [List.mem_filter]
      exact ⟨(Dict.mem_sortAsc _ _).mpr h, by simp [h0]⟩

/-- The matching-fold of `getVertexKey` keeps a hit once it has one. -/
theorem getVertexKey_fold_mono (g : PlanarGraph) (c : Coord) :
    ∀ (l : List ℕ) (k0 : ℕ),
      (l.foldl
        (fun acc k =>
          match g.vertices.find? k with
          | some v => if eqc v.coord c then some k else acc
          | none => acc) (some k0)).isSome
  | [], k0 => rfl
  | k :: l, k0 => by
    show (List.foldl _ (match g.vertices.find? k with
      | some v => if eqc v.coord c then some k else some k0
      | none => some k0) l).isSome
    cases hf : g.vertices.find? k with
    | none => exact getVertexKey_fold_mono g c l k0
    | some v =>
      by_cases he : eqc v.coord c
      · simp only [if_pos he]
        exact getVertexKey_fold_mono g c l k
      · simp only [if_neg he]
        exact getVertexKey_fold_mono g c l k0

/-- If some listed key matches the coordinate, the fold produces a hit. -/
theorem getVertexKey_fold_hit (g : PlanarGraph) (c : Coord) :
    ∀ (l : List ℕ) (acc : Option ℕ) (k : ℕ) (v : Vertex),
      k ∈ l → g.vertices.find? k = some v → eqc v.coord c = true →
      (l.foldl
        (fun acc k =>
          match g.vertices.find? k with
          | some v => if eqc v.coord c then some k else acc
          | none => acc) acc).isSome
  | [], acc, k, v, hk, _, _ => absurd hk (List.not_mem_nil k)
  | k' :: l, acc, k, v, hk, hf, he => by
    rcases List.mem_cons.mp hk with hk | hk
    · subst hk
      show (List.foldl _ (match g.vertices.find? k with
        | some v => if eqc v.coord c then some k else acc
        | none => acc) l).isSome
      rw [hf]
      simp only [he, if_pos]
      exact getVertexKey_fold_mono g c l k
    · exact getVertexKey_fold_hit g c l _ k v hk hf he

/-- If the coordinate names an existing vertex, `getVertexKey` finds a
key. -/
theorem getVertexKey_isSome {g : PlanarGraph} {c : Coord} {k : ℕ} {v : Vertex}
    (hf : g.vertices.find? k = some v) (he : eqc v.coord c = true) :
    (getVertexKey g c).isSome := by
  unfold getVertexKey
  have hmem : k ∈ g.vertices.jsKeys := by
    rw [Dict.mem_jsKeys, ← Dict.contains_iff_mem_keyList]
    exact Dict.contains_of_find? hf
  exact getVertexKey_fold_hit g c _ none k v hmem hf he

theorem eqc_refl (c : Coord) : eqc c c = true := by simp [eqc]

/-- The pair `getBestSplittingEdge` returns is either empty or the
coordinates of two existing vertices. -/
def BestPairSpec (g : PlanarGraph) (l : List Coord) : Prop :=
  l = [] ∨ ∃ k1 k2 v1 v2, g.vertices.find? k1 = some v1 ∧
    g.vertices.find? k2 = some v2 ∧ l = [v1.coord, v2.coord]

theorem getBestSplittingEdge_fold_spec (g : PlanarGraph) (fv : List Coord) (fk : ℕ) :
    ∀ (pes : List (ℕ × ℕ)) (acc : Option ℚ × List Coord) (res : Option ℚ × List Coord),
      BestPairSpec g acc.2 →
      pes.foldlM
        (fun acc pe => do
          let v1 ← getV g pe.1
          let v2 ← getV g pe.2
          let sf ← getSplitFaceKey g v1.coord v2.coord
          if sf = some fk then
            let dist := minDistSq fv v1.coord v2.coord
            if optGT dist acc.1 then pure (dist, [v1.coord, v2.coord])
            else pure acc
          else pure acc) acc = .ok res →
      BestPairSpec g res.2
  | [], acc, res, hacc, h => by
    cases h
    exact hacc
  | pe :: pes, acc, res, hacc, h => by
    rw [List.foldlM_cons] at h
    obtain ⟨acc1, hacc1, h⟩ := except_bind_ok h
    refine getBestSplittingEdge_fold_spec g fv fk pes acc1 res ?_ h
    obtain ⟨v1, hv1, hacc1⟩ := except_bind_ok hacc1
    obtain ⟨v2, hv2, hacc1⟩ := except_bind_ok hacc1
    obtain ⟨sf, hsf, hacc1⟩ := except_bind_ok hacc1
    rw [getV_eq_ok] at hv1 hv2
    by_cases hsk : sf = some fk
    · rw [if_pos hsk] at hacc1
      by_cases hgt : optGT (minDistSq fv v1.coord v2.coord) acc.1 = true
      · rw [if_pos hgt] at hacc1
        cases hacc1
        exact Or.inr ⟨pe.1, pe.2, v1, v2, hv1, hv2, rfl⟩
      · rw [if_neg hgt] at hacc1
        cases hacc1
        exact hacc
    · rw [if_neg hsk] at hacc1
      cases hacc1
      exact hacc

/-- Inversion for `getBestSplittingEdge`. -/
theorem getBestSplittingEdge_spec {g : PlanarGraph} {eks : List ℕ} {fk : ℕ}
    {l : List Coord} (h : getBestSplittingEdge g eks fk = .ok l) :
    BestPairSpec g l := by
  unfold getBestSplittingEdge at h
  obtain ⟨pes, hpes, h⟩ := except_bind_ok h
  obtain ⟨fv, hfv, h⟩ := except_bind_ok h
  obtain ⟨best, hbest, h⟩ := except_bind_ok h
  cases h
  exact getBestSplittingEdge_fold_spec g fv fk pes _ best (Or.inl rfl) hbest

/-- On success, `splitFace` either returns the graph unchanged or runs the
face-splitting `connect` case of `addEdge`: vertices are untouched,
existing edges keep their origin and twin, keys stay below the advanced
counter. -/
theorem splitFace_shape {g : PlanarGraph} {fKey : ℕ} {n n' : ℕ} {g' : PlanarGraph}
    (hkb : KeysBelow g n) (h : splitFace g fKey n = (.ok g', n')) :
    g'.vertices = g.vertices ∧ EdgeOTExt g g' ∧ KeysBelow g' n' ∧ n ≤ n' := by
  unfold splitFace at h
  obtain ⟨edges, m0, hedges, h⟩ := slugm_bind_eq_ok h
  obtain ⟨hedges', hm0⟩ := liftE_eq_ok hedges
  by_cases hc : (decide (edges.length > 3) && decide (g.infiniteFace ≠ fKey)) = true
  · rw [if_pos hc] at h
    obtain ⟨e, m1, he, h⟩ := slugm_bind_eq_ok h
    obtain ⟨he', hm1⟩ := liftE_eq_ok he
    have hspec := getBestSplittingEdge_spec he'
    cases e with
    | nil => exact absurd h throwS_ne_ok
    | cons p0 rest =>
      cases rest with
      | nil => exact absurd h throwS_ne_ok
      | cons p1 rest2 =>
        rcases hspec with hnilspec | ⟨k1, k2, v1, v2, hv1, hv2, hlspec⟩
        · cases hnilspec
        · have hp0 : p0 = v1.coord := by
            injection hlspec with h1 h2
          have hp1 : p1 = v2.coord := by
            injection hlspec with h1 h2
            injection h2 with h3 h4
          subst hp0
          subst hp1
          -- both coordinates name existing vertices: `addEdge` dispatches to `connect`
          unfold addEdge at h
          dsimp only at h
          cases hgv1 : getVertexKey g v1.coord with
          | none =>
            exact absurd (congrArg Option.isSome hgv1)
              (by simp [getVertexKey_isSome hv1 (eqc_refl v1.coord)])
          | some kk1 =>
            cases hgv2 : getVertexKey g v2.coord with
            | none =>
              exact absurd (congrArg Option.isSome hgv2)
                (by simp [getVertexKey_isSome hv2 (eqc_refl v2.coord)])
            | some kk2 =>
              rw [hgv1, hgv2] at h
              dsimp only at h
              have hm : m1 = n := by omega
              rw [hm] at h
              have s := connect_shape hkb h
              exact ⟨s.2.1, s.2.2.2.2.2.2, s.2.2.2.2.1, s.2.2.2.2.2.1⟩
  · rw [if_neg hc] at h
    have h1 := congrArg Prod.fst h
    have h2 := congrArg Prod.snd h
    simp only [pure, SlugM.mk] at h1 h2
    have hg := Except.ok.inj h1
    subst hg
    have hn' : n' = n := by omega
    rw [hn']
    exact ⟨rfl, edgeOTExt_refl g, hkb, le_refl n⟩

/-- One sweep of the `triangulate` loop (the `forIn` over the snapshot of
face keys) only adds edges. -/
theorem triangulate_sweep_shape :
    ∀ (snapshot : List ℕ) (g : PlanarGraph) (n : ℕ) (g' : PlanarGraph) (n' : ℕ),
      KeysBelow g n →
      (snapshot.foldlM
        (fun gcur fKey => do
          let bes ← liftE (getBoundaryEdgeKeys gcur fKey)
          if bes.length > 3 then splitFace gcur fKey else pure gcur) g) n
        = (.ok g', n') →
      g'.vertices = g.vertices ∧ EdgeOTExt g g' ∧ KeysBelow g' n' ∧ n ≤ n'
  | [], g, n, g', n', hkb, h => by
    have h1 := congrArg Prod.fst h
    have h2 := congrArg Prod.snd h
    simp only [List.foldlM_nil, pure, SlugM.mk] at h1 h2
    have hg := Except.ok.inj h1
    subst hg
    rw [← h2]
    exact ⟨rfl, edgeOTExt_refl g, hkb, le_refl n⟩
  | fKey :: snapshot, g, n, g', n', hkb, h => by
    rw [List.foldlM_cons] at h
    obtain ⟨g1, n1, hg1, h⟩ := slugm_bind_eq_ok h
    have hstep : g1.vertices = g.vertices ∧ EdgeOTExt g g1 ∧ KeysBelow g1 n1 ∧ n ≤ n1 := by
      obtain ⟨bes, m0, hbes, hg1'⟩ := slugm_bind_eq_ok hg1
      obtain ⟨hbes', hm0⟩ := liftE_eq_ok hbes
      by_cases hlen : bes.length > 3
      · rw [if_pos hlen] at hg1'
        rw [hm0] at hg1'
        exact splitFace_shape hkb hg1'
      · rw [if_neg hlen] at hg1'
        have h1 := congrArg Prod.fst hg1'
        have h2 := congrArg Prod.snd hg1'
        simp only [pure, SlugM.mk] at h1 h2
        have hg := Except.ok.inj h1
        subst hg
        have hn1 : n1 = n := by omega
        rw [hn1]
        exact ⟨rfl, edgeOTExt_refl g, hkb, le_refl n⟩
    have sr := triangulate_sweep_shape snapshot g1 n1 g' n' hstep.2.2.1 h
    exact ⟨sr.1.trans hstep.1, edgeOTExt_trans hstep.2.1 sr.2.1, sr.2.2.1,
      le_trans hstep.2.2.2 sr.2.2.2⟩

/-- The fueled `triangulate` loop: a successful run ends triangulated and
only ever adds edges. -/
theorem triangulateLoop_shape :
    ∀ (fuel : ℕ) (g : PlanarGraph) (n : ℕ) (g' : PlanarGraph) (n' : ℕ),
      KeysBelow g n →
      triangulateLoop fuel g n = (.ok g', n') →
      isTriangulated g' = .ok true ∧
      g'.vertices = g.vertices ∧ EdgeOTExt g g' ∧ KeysBelow g' n' ∧ n ≤ n'
  | 0, g, n, g', n', _, h => absurd h throwS_ne_ok
  | fuel + 1, g, n, g', n', hkb, h => by
    rw [triangulateLoop] at h
    obtain ⟨t, m0, ht, h⟩ := slugm_bind_eq_ok h
    obtain ⟨ht', hm0⟩ := liftE_eq_ok ht
    by_cases htr : t = true
    · rw [if_pos htr] at h
      have h1 := congrArg Prod.fst h
      have h2 := congrArg Prod.snd h
      simp only [pure, SlugM.mk] at h1 h2
      have hg := Except.ok.inj h1
      subst hg
      have hn' : n' = n := by omega
      rw [hn']
      subst htr
      exact ⟨ht', rfl, edgeOTExt_refl g, hkb, le_refl n⟩
    · rw [if_neg htr] at h
      obtain ⟨g1, n1, hg1, h⟩ := slugm_bind_eq_ok h
      rw [hm0] at hg1
      have hsw := triangulate_sweep_shape _ _ _ _ _ hkb hg1
      have sr := triangulateLoop_shape fuel g1 n1 g' n' hsw.2.2.1 h
      exact ⟨sr.1, sr.2.1.trans hsw.1, edgeOTExt_trans hsw.2.1 sr.2.2.1,
        sr.2.2.2.1, le_trans hsw.2.2.2 sr.2.2.2.2⟩

/-- C4: whenever `triangulate` returns, its result passes
`isTriangulated` (every bounded face has exactly three boundary edges),
the vertex map is exactly the input's, and every edge of the input
survives with its origin and twin unchanged — the result differs only by
added edges.  The hypotheses are the slug-counter freshness invariant and
the success of the (fueled) run; a run that exhausts its fuel or crashes
returns an error instead and is not covered by the claim ("for every
connected planar graph *after hullify*" — the claim presumes the
triangulation pass completes). -/
theorem c4_triangulate_only_adds {fuel : ℕ} {g : PlanarGraph} {n : ℕ}
    {g' : PlanarGraph} {n' : ℕ}
    (hkb : KeysBelow g n) (h : triangulate fuel g n = (.ok g', n')) :
    isTriangulated g' = .ok true ∧
    g'.vertices = g.vertices ∧
    (∀ k e, g.edges.find? k = some e →
      ∃ e', g'.edges.find? k = some e' ∧ e'.origin = e.origin ∧ e'.twin = e.twin) := by
  have s := triangulateLoop_shape fuel g n g' n' hkb h
  exact ⟨s.1, s.2.1, s.2.2.1⟩

/-- Witness for C4: triangulating the square (one bounded quadrilateral
face) succeeds, adds the diagonal, and the result passes
`isTriangulated` while keeping the vertex map. -/
theorem c4_triangulate_only_adds_witness :
    KeysBelow gSquare 13 ∧
    triangulate 10 gSquare 13 = (.ok gSquareTri, 16) ∧
    isTriangulated gSquareTri = .ok true ∧
    gSquareTri.vertices = gSquare.vertices := by
  have hkb : KeysBelow gSquare 13 := by with_unfolding_all decide
  have hrun : triangulate 10 gSquare 13 = (.ok gSquareTri, 16) := by
    with_unfolding_all decide
  have s := c4_triangulate_only_adds hkb hrun
  exact ⟨hkb, hrun, s.1, s.2.1⟩

/-! ## The rotation of `getOutgoingEdgeKeys` (C9) -/

/-- Cancellation along iterates of an injective partial step map: if the
`j`-th and `k`-th iterates agree, the `(k - j)`-th iterate is the start. -/
theorem chainIter_cancel {f : ℕ → Option ℕ}
    (hinj : ∀ e1 e2 m, f e1 = some m → f e2 = some m → e1 = e2) {e0 : ℕ} :
    ∀ j k z, chainIter f e0 j = some z → chainIter f e0 k = some z →
      chainIter f e0 (k - j) = some e0
  | 0, k, z, hj, hk => by
    have hz : chainIter f e0 0 = some e0 := rfl
    rw [hz] at hj
    have : e0 = z := Option.some.inj hj
    rw [Nat.sub_zero, hk, this]
  | j + 1, 0, z, _, _ => by
    have h0 : (0 : ℕ) - (j + 1) = 0 := by omega
    rw [h0]
    rfl
  | j + 1, k + 1, z, hj, hk => by
    simp only [chainIter] at hj hk
    rw [Option.bind_eq_some] at hj hk
    obtain ⟨xj, hxj, hfj⟩ := hj
    obtain ⟨xk, hxk, hfk⟩ := hk
    have hx : xj = xk := hinj xj xk z hfj hfk
    rw [← hx] at hxk
    have ih := chainIter_cancel hinj j k xj hxj hxk
    have harith : (k + 1) - (j + 1) = k - j := by omega
    rw [harith]
    exact ih

/-- Under the half-edge invariants, `next(twin(·))` is defined on every
edge originating at `v`, lands on an edge originating at `v`, and its
value is a present edge key. -/
theorem stepNextTwin_closed {g : PlanarGraph} {v : ℕ}
    (hinv : ∀ p ∈ g.edges.entries, edgeInvB g p.1 p.2 = true) :
    ∀ e, (∃ er, g.edges.find? e = some er ∧ er.origin = v) →
      ∃ m, stepNextTwin g e = some m ∧
        ∃ mr, g.edges.find? m = some mr ∧ mr.origin = v := by
  rintro e ⟨er, hfind, horig⟩
  have hie := hinv (e, er) (Dict.find?_mem hfind)
  unfold edgeInvB at hie
  rcases htw : er.twin with _ | t
  · rw [htw] at hie
    simp at hie
  rcases hnxe : er.next with _ | n
  · rw [htw, hnxe] at hie
    simp at hie
  rw [htw, hnxe] at hie
  dsimp only at hie
  rcases hft : g.edges.find? t with _ | tr
  · rw [hft] at hie
    simp at hie
  rcases hfn : g.edges.find? n with _ | nr
  · rw [hft, hfn] at hie
    simp at hie
  rw [hft, hfn] at hie
  dsimp only at hie
  simp only [Bool.and_eq_true, beq_iff_eq] at hie
  have hit := hinv (t, tr) (Dict.find?_mem hft)
  unfold edgeInvB at hit
  rcases hnx2 : tr.next with _ | n2
  · rw [hie.1.1, hnx2] at hit
    simp at hit
  rw [hie.1.1, hnx2] at hit
  dsimp only at hit
  rw [hfind] at hit
  rcases hfn2 : g.edges.find? n2 with _ | nr2
  · rw [hfn2] at hit
    simp at hit
  rw [hfn2] at hit
  dsimp only at hit
  simp only [Bool.and_eq_true, beq_iff_eq] at hit
  refine ⟨n2, ?_, nr2, hfn2, ?_⟩
  · unfold stepNextTwin
    rw [hfind]
    simp [htw, hft, hnx2]
  · rw [← hit.2, horig]

/-- Under the half-edge invariants, a successful `next(twin(·))` step
records its source: the target's `prev` points back at the twin, whose
`twin` points back at the source. -/
theorem stepNextTwin_prev {g : PlanarGraph}
    (hinv : ∀ p ∈ g.edges.entries, edgeInvB g p.1 p.2 = true)
    {e m : ℕ} (h : stepNextTwin g e = some m) :
    ∃ t tr mr, g.edges.find? t = some tr ∧ tr.twin = some e ∧
      g.edges.find? m = some mr ∧ mr.prev = some t := by
  unfold stepNextTwin at h
  rw [Option.bind_eq_some] at h
  obtain ⟨t, h1, h⟩ := h
  rw [Option.bind_eq_some] at h1
  obtain ⟨er, hfe, htw⟩ := h1
  rw [Option.bind_eq_some] at h
  obtain ⟨tr, hft, hnx⟩ := h
  have hie := hinv (e, er) (Dict.find?_mem hfe)
  unfold edgeInvB at hie
  rcases hnxe : er.next with _ | n
  · rw [htw, hnxe] at hie
    simp at hie
  rw [htw, hnxe] at hie
  dsimp only at hie
  rw [hft] at hie
  rcases hfn : g.edges.find? n with _ | nr
  · rw [hfn] at hie
    simp at hie
  rw [hfn] at hie
  dsimp only at hie
  simp only [Bool.and_eq_true, beq_iff_eq] at hie
  have hit := hinv (t, tr) (Dict.find?_mem hft)
  unfold edgeInvB at hit
  rw [hie.1.1, hnx] at hit
  dsimp only at hit
  rw [hfe] at hit
  rcases hfm : g.edges.find? m with _ | mr
  · rw [hfm] at hit
    simp at hit
  rw [hfm] at hit
  dsimp only at hit
  simp only [Bool.and_eq_true, beq_iff_eq] at hit
  exact ⟨t, tr, mr, hft, hie.1.1, rfl, hit.1.2⟩

/-- Under the half-edge invariants, the `next(twin(·))` step map is
injective on edge keys. -/
theorem stepNextTwin_inj {g : PlanarGraph}
    (hinv : ∀ p ∈ g.edges.entries, edgeInvB g p.1 p.2 = true)
    {e1 e2 m : ℕ}
    (h1 : stepNextTwin g e1 = some m) (h2 : stepNextTwin g e2 = some m) :
    e1 = e2 := by
  obtain ⟨t1, tr1, mr1, hft1, htw1, hfm1, hprev1⟩ := stepNextTwin_prev hinv h1
  obtain ⟨t2, tr2, mr2, hft2, htw2, hfm2, hprev2⟩ := stepNextTwin_prev hinv h2
  rw [hfm1] at hfm2
  have hmr : mr1 = mr2 := Option.some.inj hfm2
  rw [← hmr] at hprev2
  rw [hprev1] at hprev2
  have ht : t1 = t2 := Option.some.inj hprev2
  rw [← ht] at hft2
  rw [hft1] at hft2
  have htr : tr1 = tr2 := Option.some.inj hft2
  rw [← htr] at htw2
  rw [htw1] at htw2
  exact Option.some.inj htw2

/-- The rotation walk of `getOutgoingEdgeKeys` traces the iterates of the
`next(twin(·))` step map: precisely, when the accumulator holds the first
`acc.length` iterates of `e0` (all distinct) and `cur` is the next
iterate, a successful walk returns a duplicate-free list extending the
accumulator whose entries are exactly the iterates of `e0`, and the
iterate at the returned length is `e0` again. -/
theorem rotationWalk_rotation {g : PlanarGraph} (P : ℕ → Prop)
    (hclose : ∀ e, P e → ∃ m, stepNextTwin g e = some m ∧ P m)
    (hinj : ∀ e1 e2 m, stepNextTwin g e1 = some m → stepNextTwin g e2 = some m → e1 = e2) :
    ∀ (fuel cur : ℕ) (acc eks : List ℕ) (e0 : ℕ),
      rotationWalk g fuel cur acc = .ok eks →
      P cur → (∀ e ∈ acc, P e) → acc.Nodup →
      (∀ i, (hi : i < acc.length) → chainIter (stepNextTwin g) e0 i = some acc[i]) →
      chainIter (stepNextTwin g) e0 acc.length = some cur →
      eks.Nodup ∧ (∀ e ∈ eks, P e) ∧ (∀ e ∈ acc, e ∈ eks) ∧ cur ∈ eks ∧
      (∀ i, (hi : i < eks.length) → chainIter (stepNextTwin g) e0 i = some eks[i]) ∧
      chainIter (stepNextTwin g) e0 eks.length = some e0
  | 0, cur, acc, eks, e0, h, _, _, _, _, _ => by
    simp [rotationWalk] at h
  | fuel + 1, cur, acc, eks, e0, h, hPcur, hPacc, hnd, hpt, hret => by
    simp only [rotationWalk] at h
    by_cases hmem : cur ∈ acc
    · rw [if_pos hmem] at h
      have heq : acc = eks := Except.ok.inj h
      subst heq
      refine ⟨hnd, hPacc, fun e he => he, hmem, hpt, ?_⟩
      obtain ⟨j, hj, hjeq⟩ := List.getElem_of_mem hmem
      have hchainj : chainIter (stepNextTwin g) e0 j = some cur := by
        rw [hpt j hj, hjeq]
      have hcancel := chainIter_cancel hinj j acc.length cur hchainj hret
      by_cases hj0 : j = 0
      · subst hj0
        simpa using hcancel
      · exfalso
        have hlt : acc.length - j < acc.length := by omega
        have hgt : 0 < acc.length - j := by omega
        have h1 := hpt (acc.length - j) hlt
        rw [hcancel] at h1
        have he1 : e0 = acc[acc.length - j] := Option.some.inj h1
        have h0 := hpt 0 (by omega)
        have hz : chainIter (stepNextTwin g) e0 0 = some e0 := rfl
        rw [hz] at h0
        have he0 : e0 = acc[0] := Option.some.inj h0
        have h0lt : 0 < acc.length := by omega
        have hgl : acc[0] = acc[acc.length - j] := by
          rw [← he0, ← he1]
        have hij := (hnd.getElem_inj_iff).mp hgl
        omega
    · rw [if_neg hmem] at h
      obtain ⟨er, h1, h⟩ := except_bind_ok h
      obtain ⟨t, h2, h⟩ := except_bind_ok h
      obtain ⟨tr, h3, h⟩ := except_bind_ok h
      obtain ⟨nxt, h4, h⟩ := except_bind_ok h
      have hfe := getE_eq_ok.mp h1
      have htw := req_eq_ok.mp h2
      have hft := getE_eq_ok.mp h3
      have hnx := req_eq_ok.mp h4
      have hstep : stepNextTwin g cur = some nxt := by
        unfold stepNextTwin
        rw [hfe]
        simp [htw, hft, hnx]
      have hPnxt : P nxt := by
        obtain ⟨m, hm, hPm⟩ := hclose cur hPcur
        rw [hstep] at hm
        have hmn : nxt = m := Option.some.inj hm
        rw [hmn]
        exact hPm
      have hPacc' : ∀ e ∈ acc ++ [cur], P e := by
        intro e he
        rcases List.mem_append.mp he with h' | h'
        · exact hPacc e h'
        · rw [List.mem_singleton] at h'
          subst h'
          exact hPcur
      have hnd' : (acc ++ [cur]).Nodup := by
        rw [List.nodup_append]
        refine ⟨hnd, List.nodup_singleton _, ?_⟩
        intro a ha hb
        rw [List.mem_singleton] at hb
        subst hb
        exact hmem ha
      have hlen : (acc ++ [cur]).length = acc.length + 1 := by simp
      have hpt' : ∀ i, (hi : i < (acc ++ [cur]).length) →
          chainIter (stepNextTwin g) e0 i = some (acc ++ [cur])[i] := by
        intro i hi
        have hi' : i < acc.length + 1 := by rw [← hlen]; exact hi
        by_cases hcase : i < acc.length
        · rw [List.getElem_append_left hcase]
          exact hpt i hcase
        · have hieq : i = acc.length := by omega
          subst hieq
          have hcat : (acc ++ [cur])[acc.length] = cur := by
            simp
          rw [hcat]
          exact hret
      have hret' : chainIter (stepNextTwin g) e0 (acc ++ [cur]).length = some nxt := by
        rw [hlen]
        simp only [chainIter]
        rw [hret]
        simpa using hstep
      have ih := rotationWalk_rotation P hclose hinj fuel nxt (acc ++ [cur]) eks e0
        h hPnxt hPacc' hnd' hpt' hret'
      refine ⟨ih.1, ih.2.1, ?_, ?_, ih.2.2.2.2.1, ih.2.2.2.2.2⟩
      · intro e he
        exact ih.2.2.1 e (List.mem_append.mpr (Or.inl he))
      · exact ih.2.2.1 cur (List.mem_append.mpr (Or.inr (List.mem_singleton.mpr rfl)))

/-- C9 (amended): for every vertex `v` of a graph satisfying the DCEL
invariants (twin present and involutive, next present with prev its
inverse, twin and next agreeing on each edge's head, incident edges
originating at their vertex), a successful `getOutgoingEdgeKeys g v`
returns a duplicate-free sequence of edges all originating at `v`, and
the `next(twin(e))` chain — the rotation the code walks; the claim's
`twin(next(e))` has the two maps composed in the wrong order — starting
from the first returned edge visits exactly the returned edges in order
and returns to its start after exactly `degree(v)` (the number of
returned edges) steps, not earlier. -/
theorem c9_outgoing_rotation {g : PlanarGraph} {v : ℕ} {eks : List ℕ}
    (hinv : DCELRotInvariants g)
    (h : getOutgoingEdgeKeys g v = .ok eks) :
    (∀ e ∈ eks, ∃ er, g.edges.find? e = some er ∧ er.origin = v) ∧
    eks.Nodup ∧
    (∀ i, (hi : i < eks.length) →
      chainIter (stepNextTwin g) (eks.headD 0) i = some eks[i]) ∧
    (eks = [] ∨
      (chainIter (stepNextTwin g) (eks.headD 0) eks.length = some (eks.headD 0) ∧
       ∀ i, 0 < i → i < eks.length →
         chainIter (stepNextTwin g) (eks.headD 0) i ≠ some (eks.headD 0))) := by
  unfold getOutgoingEdgeKeys at h
  obtain ⟨vr, h1, h⟩ := except_bind_ok h
  have hfv := getV_eq_ok.mp h1
  cases hic : vr.incidentEdge with
  | none =>
    rw [hic] at h
    dsimp only at h
    have heq : ([] : List ℕ) = eks := Except.ok.inj h
    subst heq
    exact ⟨fun e he => absurd he (List.not_mem_nil e), List.nodup_nil,
      fun i hi => absurd hi (by simp), Or.inl rfl⟩
  | some start =>
    rw [hic] at h
    dsimp only at h
    have hPstart : ∃ er, g.edges.find? start = some er ∧ er.origin = v := by
      have hv := hinv.2 (v, vr) (Dict.find?_mem hfv)
      unfold vertexInvB at hv
      rw [hic] at hv
      dsimp only at hv
      rcases hfs : g.edges.find? start with _ | er
      · rw [hfs] at hv
        simp at hv
      · rw [hfs] at hv
        dsimp only at hv
        simp only [beq_iff_eq] at hv
        exact ⟨er, rfl, hv⟩
    have hrot := rotationWalk_rotation
      (fun e => ∃ er, g.edges.find? e = some er ∧ er.origin = v)
      (stepNextTwin_closed hinv.1)
      (fun e1 e2 m hm1 hm2 => stepNextTwin_inj hinv.1 hm1 hm2)
      (g.edges.size + 1) start [] eks start h hPstart
      (fun e he => absurd he (List.not_mem_nil e))
      List.nodup_nil
      (fun i hi => absurd hi (by simp))
      rfl
    obtain ⟨hnd, hPall, _, hstartmem, hpt, hfin⟩ := hrot
    have hne : eks ≠ [] := by
      intro hcon
      rw [hcon] at hstartmem
      exact absurd hstartmem (List.not_mem_nil start)
    have h0 : 0 < eks.length := List.length_pos.mpr hne
    have hch0 : chainIter (stepNextTwin g) start 0 = some start := rfl
    have he0 : start = eks[0] := Option.some.inj (hch0.symm.trans (hpt 0 h0))
    have hhead : eks.headD 0 = start := by
      cases eks with
      | nil => exact absurd rfl hne
      | cons a tl => simpa using he0.symm
    refine ⟨hPall, hnd, ?_, Or.inr ⟨?_, ?_⟩⟩
    · intro i hi
      rw [hhead]
      exact hpt i hi
    · rw [hhead]
      exact hfin
    · intro i hip hile hcon
      rw [hhead] at hcon
      have hgl : eks[i] = eks[0] := by
        have := ((hpt i hile).symm.trans hcon)
        rw [← he0]
        exact Option.some.inj this
      have hij := (hnd.getElem_inj_iff).mp hgl
      omega

/-- Witness for C9: on the hand-built 3-leaf star, the walk from the
center returns `[10, 12, 14]`, all originating at the center, and the
`next(twin(e))` chain from edge `10` closes up after exactly 3 steps. -/
theorem c9_outgoing_rotation_witness :
    DCELRotInvariants gStar ∧
    getOutgoingEdgeKeys gStar 1 = .ok [10, 12, 14] ∧
    (∀ e ∈ ([10, 12, 14] : List ℕ), ∃ er, gStar.edges.find? e = some er ∧ er.origin = 1) ∧
    chainIter (stepNextTwin gStar) 10 3 = some 10 := by
  have hinv : DCELRotInvariants gStar := by with_unfolding_all decide
  have hrun : getOutgoingEdgeKeys gStar 1 = .ok [10, 12, 14] := by
    with_unfolding_all decide
  have s := c9_outgoing_rotation hinv hrun
  refine ⟨hinv, hrun, s.1, ?_⟩
  rcases s.2.2.2 with hcon | hclose
  · simp at hcon
  · simpa using hclose.1

/-- C9 counterexample to the claim as stated: the star's DCEL satisfies
the invariants and the walk from the center returns three edges, but the
`twin(next(e))` chain the claim names is already back at its start after
one step (edge 10's next is 11, whose twin is 10 again), so it neither
takes exactly `degree(v) = 3` steps nor visits each returned edge once. -/
theorem c9_stated_chain_fails_on_star :
    DCELRotInvariants gStar ∧
    getOutgoingEdgeKeys gStar 1 = .ok [10, 12, 14] ∧
    chainIter (stepTwinNext gStar) 10 1 = some 10 ∧
    statedRotationOk gStar 1 = false := by
  with_unfolding_all decide

/-! ## The update trace of `preColor` (C3) -/

/-- Inversion for one instrumented update: the vertex is present, its
record gets exactly the new colors, the event logs its old colors, and
the uninstrumented `updateColors` agrees. -/
theorem updateColorsT_ok {g g' : PlanarGraph} {k : ℕ} {cs : List Color}
    {tr tr' : List UpdateEvent}
    (h : updateColorsT g k cs tr = .ok (g', tr')) :
    ∃ vr, g.vertices.find? k = some vr ∧
      g' = { g with vertices := g.vertices.insert k { vr with colors := cs } } ∧
      tr' = tr ++ [(k, vr.colors, cs)] ∧
      updateColors g k cs = .ok g' := by
  unfold updateColorsT at h
  obtain ⟨old, hold, h⟩ := except_bind_ok h
  obtain ⟨g1, hg1, h⟩ := except_bind_ok h
  simp only [pure, Except.pure] at h
  have hp := Except.ok.inj h
  have hpg : g1 = g' := congrArg Prod.fst hp
  have hpt : tr ++ [(k, old, cs)] = tr' := congrArg Prod.snd hp
  unfold getColors at hold
  obtain ⟨vr, hv, hold2⟩ := except_bind_ok hold
  have hfv := getV_eq_ok.mp hv
  simp only [pure, Except.pure] at hold2
  have holdc : vr.colors = old := Except.ok.inj hold2
  obtain ⟨vr', hfv', hshape⟩ :=
    modifyV_eq_ok (show modifyV g k (fun v => { v with colors := cs }) = .ok g1 from hg1)
  rw [hfv] at hfv'
  have hvv : vr = vr' := Option.some.inj hfv'
  refine ⟨vr, hfv, ?_, ?_, ?_⟩
  · rw [← hpg, hshape, ← hvv]
  · rw [← hpt, holdc]
  · rw [hpg] at hg1
    exact hg1

/-- A constant-colors instrumented fold (the two bulk phases of
`preColor`): it preserves a colors-set invariant, logs only narrowing
events writing `cs`, rewrites exactly the folded keys to `cs`, keeps the
marks and the other vertices, and agrees with the uninstrumented fold. -/
theorem updateColorsT_fold (cs : List Color) (S : List (List Color))
    (hcs : cs ∈ S) (hsub : ∀ old ∈ S, cs ⊆ old) :
    ∀ (ks : List ℕ) (g : PlanarGraph) (tr : List UpdateEvent)
      (g1 : PlanarGraph) (tr1 : List UpdateEvent),
      ks.foldlM (fun (p : PlanarGraph × List UpdateEvent) vKey =>
        updateColorsT p.1 vKey cs p.2) (g, tr) = .ok (g1, tr1) →
      (∀ k vr, g.vertices.find? k = some vr → vr.colors ∈ S) →
      (∀ k vr, g1.vertices.find? k = some vr → vr.colors ∈ S) ∧
      (∃ tl, tr1 = tr ++ tl ∧ ∀ ev ∈ tl, ev.2.2 ⊆ ev.2.1 ∧ ev.2.2 = cs) ∧
      (∀ k, k ∈ ks → ∃ vr, g1.vertices.find? k = some vr ∧ vr.colors = cs) ∧
      (∀ k, k ∉ ks → g1.vertices.find? k = g.vertices.find? k) ∧
      g1.mark1 = g.mark1 ∧ g1.mark2 = g.mark2 ∧
      ks.foldlM (fun h vKey => updateColors h vKey cs) g = .ok g1
  | [], g, tr, g1, tr1, h, hS => by
    simp only [List.foldlM_nil, pure, Except.pure] at h
    have hp := Except.ok.inj h
    have hpg : g = g1 := congrArg Prod.fst hp
    have hptr : tr = tr1 := congrArg Prod.snd hp
    subst hpg
    subst hptr
    refine ⟨hS, ⟨[], by simp, fun ev hev => absurd hev (List.not_mem_nil ev)⟩,
      fun k hk => absurd hk (List.not_mem_nil k), fun k _ => rfl, rfl, rfl, ?_⟩
    simp only [List.foldlM_nil]
    rfl
  | k :: ks, g, tr, g1, tr1, h, hS => by
    rw [List.foldlM_cons] at h
    obtain ⟨p, hp, h⟩ := except_bind_ok h
    obtain ⟨ga, tra⟩ := p
    dsimp only at hp
    obtain ⟨vr, hfind, hga, htra, hupd⟩ := updateColorsT_ok hp
    subst hga
    have hSa : ∀ k' vr',
        ({ g with vertices := g.vertices.insert k { vr with colors := cs } } :
          PlanarGraph).vertices.find? k' = some vr' → vr'.colors ∈ S := by
      intro k' vr' hf
      dsimp only at hf
      by_cases hk : k' = k
      · subst hk
        rw [Dict.find?_insert_self] at hf
        have hv' := Option.some.inj hf
        rw [← hv']
        exact hcs
      · rw [Dict.find?_insert_ne _ k k' _ hk] at hf
        exact hS k' vr' hf
    have ih := updateColorsT_fold cs S hcs hsub ks _ tra g1 tr1 h hSa
    refine ⟨ih.1, ?_, ?_, ?_, ?_, ?_, ?_⟩
    · obtain ⟨tl, htl, hall⟩ := ih.2.1
      refine ⟨(k, vr.colors, cs) :: tl, ?_, ?_⟩
      · rw [htl, htra]
        simp
      · intro ev hev
        rcases List.mem_cons.mp hev with hev | hev
        · subst hev
          exact ⟨hsub _ (hS k vr hfind), rfl⟩
        · exact hall ev hev
    · intro k' hk'
      rcases List.mem_cons.mp hk' with hk' | hk'
      · subst hk'
        by_cases hmem : k' ∈ ks
        · exact ih.2.2.1 k' hmem
        · refine ⟨{ vr with colors := cs }, ?_, rfl⟩
          rw [ih.2.2.2.1 k' hmem]
          dsimp only
          exact Dict.find?_insert_self _ _ _
      · exact ih.2.2.1 k' hk'
    · intro k' hk'
      have hkk : k' ≠ k := fun hh => hk' (hh ▸ List.mem_cons_self k ks)
      have hkks : k' ∉ ks := fun hh => hk' (List.mem_cons_of_mem k hh)
      rw [ih.2.2.2.1 k' hkks]
      dsimp only
      exact Dict.find?_insert_ne _ k k' _ hkk
    · rw [ih.2.2.2.2.1]
    · rw [ih.2.2.2.2.2.1]
    · rw [List.foldlM_cons, hupd]
      exact ih.2.2.2.2.2.2

/-- C3 (amended): along `preColor`'s update trace, every `updateColors`
call writes a non-empty candidate set, and every call narrows (writes a
subset of the vertex's previous candidates) except the very last one:
the final call re-colors `mark2` to `[Blue]`, which is never a subset of
`mark2`'s previous candidates (by then `[Red, Orange, Yellow]`, or
`[Red]` when the marks coincide) — so the spec's monotone-narrowing
invariant holds at every update site of `preColor` but the last, where
it is irreparably violated.  Hypotheses: every input vertex starts with
all five candidates (as every vertex-creation site of the source writes)
and the instrumented run succeeds. -/
theorem c3_precolor_narrowing {g gF : PlanarGraph} {tr : List UpdateEvent}
    (hall : ∀ p ∈ g.vertices.entries, p.2.colors = ALL_COLORS)
    (h : preColorT g = .ok (gF, tr)) :
    preColor g = .ok gF ∧
    (∀ ev ∈ tr, ev.2.2 ≠ []) ∧
    (∀ ev ∈ tr.dropLast, ev.2.2 ⊆ ev.2.1) ∧
    (∃ m2 old, gF.mark2 = some m2 ∧
      tr.getLast? = some (m2, old, [Color.Blue]) ∧ ¬ ([Color.Blue] ⊆ old)) := by
  unfold preColorT at h
  obtain ⟨bvs, hbv, h⟩ := except_bind_ok h
  dsimp only at h
  obtain ⟨p1, hp1, h⟩ := except_bind_ok h
  obtain ⟨g1, tr1⟩ := p1
  obtain ⟨p2, hp2, h⟩ := except_bind_ok h
  obtain ⟨g2, tr2⟩ := p2
  dsimp only at h
  obtain ⟨m1, hm1, h⟩ := except_bind_ok h
  obtain ⟨p3, hp3, h⟩ := except_bind_ok h
  obtain ⟨g3, tr3⟩ := p3
  dsimp only at h
  obtain ⟨m2, hm2, h⟩ := except_bind_ok h
  have inv0 : ∀ k vr,
      ({ g with mark1 := bvs.get? 0, mark2 := bvs.get? 1 } :
        PlanarGraph).vertices.find? k = some vr → vr.colors ∈ [ALL_COLORS] := by
    intro k vr hf
    rw [List.mem_singleton]
    exact hall (k, vr) (Dict.find?_mem hf)
  have f1 := updateColorsT_fold ALL_COLORS [ALL_COLORS]
    (by simp) (by
      intro old hold
      rw [List.mem_singleton] at hold
      rw [hold]
      exact fun a ha => ha) _ _ _ _ _ hp1 inv0
  have inv1 : ∀ k vr, g1.vertices.find? k = some vr →
      vr.colors ∈ [ALL_COLORS, ALL_COLORS.take 3] := by
    intro k vr hf
    have hx := f1.1 k vr hf
    rw [List.mem_singleton] at hx
    rw [hx]
    simp
  have f2 := updateColorsT_fold (ALL_COLORS.take 3)
    [ALL_COLORS, ALL_COLORS.take 3]
    (by simp) (by
      intro old hold
      rcases List.mem_cons.mp hold with hold | hold
      · rw [hold]
        exact List.take_subset 3 ALL_COLORS
      · rw [List.mem_singleton] at hold
        rw [hold]
        exact fun a ha => ha) _ _ _ _ _ hp2 inv1
  obtain ⟨vr1, hf1, hg3, htr3, hupd3⟩ := updateColorsT_ok hp3
  obtain ⟨vr2, hf2, hgF, htrF, hupdF⟩ := updateColorsT_ok h
  have hm2v : g3.mark2 = some m2 := req_eq_ok.mp hm2
  have hm2g2 : g2.mark2 = some m2 := by
    rw [hg3] at hm2v
    exact hm2v
  have hm2bvs : bvs.get? 1 = some m2 := by
    rw [f2.2.2.2.2.2.1, f1.2.2.2.2.2.1] at hm2g2
    exact hm2g2
  have hm2mem : m2 ∈ bvs := List.get?_mem hm2bvs
  -- the colors of m2 at the final update contain no Blue
  have hold2 : vr2.colors = ALL_COLORS.take 3 ∨ vr2.colors = [Color.Red] := by
    rw [hg3] at hf2
    dsimp only at hf2
    by_cases hmm : m2 = m1
    · right
      subst hmm
      rw [Dict.find?_insert_self] at hf2
      have := Option.some.inj hf2
      rw [← this]
    · left
      rw [Dict.find?_insert_ne _ m1 m2 _ hmm] at hf2
      obtain ⟨vr2', hf2', hc2⟩ := f2.2.2.1 m2 hm2mem
      rw [hf2'] at hf2
      rw [← Option.some.inj hf2]
      exact hc2
  have hnotblue : ¬ ([Color.Blue] ⊆ vr2.colors) := by
    rcases hold2 with hc | hc <;> rw [hc] <;> intro hsub <;>
      exact absurd (hsub (List.mem_singleton.mpr rfl)) (by decide)
  -- the old colors of m1 at its update admit Red
  have hred : [Color.Red] ⊆ vr1.colors := by
    have hx := f2.1 m1 vr1 hf1
    rcases List.mem_cons.mp hx with hc | hc
    · rw [hc]
      decide
    · rw [List.mem_singleton] at hc
      rw [hc]
      decide
  refine ⟨?_, ?_, ?_, ⟨m2, vr2.colors, ?_, ?_, hnotblue⟩⟩
  · -- correspondence with the uninstrumented preColor
    unfold preColor
    rw [hbv]
    show (do
      let gm : PlanarGraph := { g with mark1 := bvs.get? 0, mark2 := bvs.get? 1 }
      let ga ← gm.vertices.jsKeys.foldlM
        (fun g' vKey => updateColors g' vKey ALL_COLORS) gm
      let gb ← bvs.foldlM
        (fun g' vKey => updateColors g' vKey (ALL_COLORS.take 3)) ga
      let m1 ← req gb.mark1
      let gc ← updateColors gb m1 [Color.Red]
      let m2 ← req gc.mark2
      updateColors gc m2 [Color.Blue]) = .ok gF
    dsimp only
    rw [f1.2.2.2.2.2.2]
    show (do
      let gb ← bvs.foldlM
        (fun g' vKey => updateColors g' vKey (ALL_COLORS.take 3)) g1
      let m1 ← req gb.mark1
      let gc ← updateColors gb m1 [Color.Red]
      let m2 ← req gc.mark2
      updateColors gc m2 [Color.Blue]) = .ok gF
    rw [f2.2.2.2.2.2.2]
    show (do
      let m1 ← req g2.mark1
      let gc ← updateColors g2 m1 [Color.Red]
      let m2 ← req gc.mark2
      updateColors gc m2 [Color.Blue]) = .ok gF
    rw [hm1]
    show (do
      let gc ← updateColors g2 m1 [Color.Red]
      let m2 ← req gc.mark2
      updateColors gc m2 [Color.Blue]) = .ok gF
    rw [hupd3]
    show (do
      let m2 ← req g3.mark2
      updateColors g3 m2 [Color.Blue]) = .ok gF
    rw [hm2]
    show updateColors g3 m2 [Color.Blue] = .ok gF
    exact hupdF
  · -- all written sets are non-empty
    intro ev hev
    rw [htrF, htr3] at hev
    obtain ⟨tl2, htl2, hall2⟩ := f2.2.1
    obtain ⟨tl1, htl1, hall1⟩ := f1.2.1
    rw [htl2, htl1] at hev
    simp only [List.nil_append, List.mem_append, List.mem_singleton] at hev
    rcases hev with ((hev | hev) | hev) | hev
    · rw [(hall1 ev hev).2]
      decide
    · rw [(hall2 ev hev).2]
      decide
    · subst hev
      simp
    · subst hev
      simp
  · -- all updates but the last narrow
    intro ev hev
    rw [htrF, List.dropLast_concat, htr3] at hev
    obtain ⟨tl2, htl2, hall2⟩ := f2.2.1
    obtain ⟨tl1, htl1, hall1⟩ := f1.2.1
    rw [htl2, htl1] at hev
    simp only [List.nil_append, List.mem_append, List.mem_singleton] at hev
    rcases hev with (hev | hev) | hev
    · exact (hall1 ev hev).1
    · exact (hall2 ev hev).1
    · rw [hev]
      exact hred
  · -- the final graph still marks m2
    rw [hgF]
    dsimp only
    exact hm2v
  · -- and the last trace event rewrites it to [Blue]
    rw [htrF]
    exact List.getLast?_concat _

/-- Witness for C3: on the triangle, the instrumented `preColor` run
succeeds; all eight updates write non-empty sets, all but the last
narrow, and the last one recolors `mark2` to `[Blue]`. -/
theorem c3_precolor_narrowing_witness :
    (∀ p ∈ gTri.vertices.entries, p.2.colors = ALL_COLORS) ∧
    preColorT gTri = .ok (gTriPre, gTriPreTrace) ∧
    preColor gTri = .ok gTriPre ∧
    (∀ ev ∈ gTriPreTrace, ev.2.2 ≠ []) ∧
    (∀ ev ∈ gTriPreTrace.dropLast, ev.2.2 ⊆ ev.2.1) ∧
    (∃ m2 old, gTriPre.mark2 = some m2 ∧
      gTriPreTrace.getLast? = some (m2, old, [Color.Blue]) ∧ ¬ ([Color.Blue] ⊆ old)) := by
  have hall : ∀ p ∈ gTri.vertices.entries, p.2.colors = ALL_COLORS := by
    with_unfolding_all decide
  have hrun : preColorT gTri = .ok (gTriPre, gTriPreTrace) := by
    with_unfolding_all decide
  have s := c3_precolor_narrowing hall hrun
  exact ⟨hall, hrun, s.1, s.2.1, s.2.2.1, s.2.2.2⟩

/-- C3 counterexample to the claim as stated: on the triangle, the last
`updateColors` call of `preColor` rewrites vertex 1 (= `mark2`) from its
three boundary candidates `[Red, Orange, Yellow]` to `[Blue]`, which is
not a subset — the candidate set of a vertex is widened by an element it
had already lost, violating monotone narrowing (and re-widening a set
that had reached size 1 is exactly what the subsequent chordless-case
bookkeeping relies on this value for). -/
theorem c3_precolor_mark2_not_narrowing :
    preColorT gTri = .ok (gTriPre, gTriPreTrace) ∧
    gTriPreTrace.getLast? =
      some (1, [Color.Red, Color.Orange, Color.Yellow], [Color.Blue]) ∧
    ¬ ([Color.Blue] ⊆ [Color.Red, Color.Orange, Color.Yellow]) := by
  refine ⟨by with_unfolding_all decide, by with_unfolding_all decide, ?_⟩
  intro hsub
  exact absurd (hsub (List.mem_singleton.mpr rfl)) (by decide)

/-! ## The five-color pipeline end to end (C1) -/

/-- C1 (amended): where the five-color pipeline completes, it behaves as
claimed — on the triangle, `fiveColor` succeeds (without consuming more
slugs), keeps exactly the input's vertex keys, leaves every vertex's
candidate set a single color, and gives the two endpoints of every
half-edge different colors.  The universal claim is refuted separately:
the pipeline crashes on every graph of two vertices (see the
counterexample), so "for every connected planar straight-line graph with
at least 2 vertices" cannot be proved. -/
theorem c1_fivecolor_triangle_success :
    fiveColorF 30 gTri gTriN = (.ok gTriColored, gTriN) ∧
    gTriColored.vertices.jsKeys = gTri.vertices.jsKeys ∧
    (gTriColored.vertices.entries.all fun p => p.2.colors.length == 1) = true ∧
    (gTriColored.edges.entries.all fun p =>
      match p.2.twin.bind (gTriColored.edges.find? ·) with
      | none => false
      | some te =>
        match gTriColored.vertices.find? p.2.origin,
              gTriColored.vertices.find? te.origin with
        | some v1, some v2 => v1.colors != v2.colors
        | _, _ => false) = true := by
  with_unfolding_all decide

/-- C1 counterexample: the two-vertex graph is connected, planar,
straight-line and already triangulated (it has no bounded face), yet
`fiveColor` can never succeed on it however much fuel the embedding
grants: with only the two marked vertices present, the chordless
reduction's `findVp` finds no boundary vertex adjacent to `mark1` and
distinct from both marks, and the source crashes reading a field of
`undefined` — so the claim's "terminates and returns ..." fails at
exactly 2 vertices. -/
theorem c1_fivecolor_crashes_on_two_vertices :
    gTwo.vertices.size = 2 ∧
    isTriangulated gTwo = .ok true ∧
    ¬ ∃ fuel g' n', fiveColorF fuel gTwo gTwoRun.2 = (.ok g', n') := by
  refine ⟨by with_unfolding_all decide, by with_unfolding_all decide, ?_⟩
  rintro ⟨fuel, g', n', h⟩
  unfold fiveColorF at h
  obtain ⟨g1, n1, hg1, h⟩ := slugm_bind_eq_ok h
  have hH : hullify gTwo gTwoRun.2 = (.ok gTwo, 4) := by with_unfolding_all decide
  rw [hH] at hg1
  have hg1g : gTwo = g1 := Except.ok.inj (congrArg Prod.fst hg1)
  have hn1 : n1 = 4 := (congrArg Prod.snd hg1).symm
  subst hg1g
  subst hn1
  obtain ⟨g2, n2, hg2, h⟩ := slugm_bind_eq_ok h
  cases fuel with
  | zero =>
    unfold triangulate at hg2
    simp [triangulateLoop, throwS] at hg2
  | succ m =>
    have htr : triangulate (m + 1) gTwo 4 = (.ok gTwo, 4) := by
      unfold triangulate
      rw [triangulateLoop]
      have hT : isTriangulated gTwo = Except.ok true := by with_unfolding_all decide
      rw [hT]
      rfl
    rw [htr] at hg2
    have hg2g : gTwo = g2 := Except.ok.inj (congrArg Prod.fst hg2)
    have hn2 : n2 = 4 := (congrArg Prod.snd hg2).symm
    subst hg2g
    subst hn2
    obtain ⟨g3, n3, hg3, h⟩ := slugm_bind_eq_ok h
    obtain ⟨hg3', hn3⟩ := liftE_eq_ok hg3
    have hP : preColor gTwo = .ok gTwoPre := by with_unfolding_all decide
    rw [hP] at hg3'
    have hg3g : gTwoPre = g3 := Except.ok.inj hg3'
    subst hg3g
    subst hn3
    obtain ⟨hc, hnn⟩ := liftE_eq_ok h
    rw [colorF] at hc
    rw [if_neg (by with_unfolding_all decide :
      ¬ gTwoPre.vertices.jsValues.length = 3)] at hc
    obtain ⟨chord, hchord, hc⟩ := except_bind_ok hc
    have hfc : findChordKey gTwoPre = .ok none := by with_unfolding_all decide
    rw [hfc] at hchord
    have hcn : (none : Option ℕ) = chord := Except.ok.inj hchord
    subst hcn
    dsimp only at hc
    unfold colorChordlessGraph at hc
    obtain ⟨bvs, hbvs, hc⟩ := except_bind_ok hc
    obtain ⟨vpq, hvp, hc⟩ := except_bind_ok hc
    have hfv : findVp gTwoPre = .ok none := by with_unfolding_all decide
    rw [hfv] at hvp
    have hvn : (none : Option ℕ) = vpq := Except.ok.inj hvp
    subst hvn
    obtain ⟨vp, hreq, hc⟩ := except_bind_ok hc
    rw [req_eq_ok] at hreq
    simp at hreq

end SlickMongoose
